import Mathlib

/-!
# Verification of the stock manager's request/fulfillment workflow

A shallow embedding of the stock-issue workflow of the `stockmanager`
repository: the data model from `models.py` and the mutating view
operations from `views/stock_issue.py`, `views/approvals.py` and
`views/stock_entry.py`, with theorems checking the specification's
claims about them.

Conventions of the embedding:
* SQLAlchemy `Numeric(10, 2)` quantities are fixed-point decimals (a grid
  of hundredths); they are embedded as `ℤ` (a count of grid steps), which
  carries the same ordered additive arithmetic the code uses.
* Timestamps (`datetime.utcnow()`) are an abstract `Nat` passed in as `now`.
* Each view operation becomes a function `DB → … → Except OpError DB`.
  A flash-an-error-and-redirect path in the source returns without
  `db.session.commit()`, so the scoped session discards the pending
  changes; this is embedded as `.error e`, i.e. the database is left as
  it was.  The helper `commitRun` makes that reading explicit.
* Form fields arrive as strings; an absent/empty field (falsy in Python)
  is embedded as `none`, a parsed value as `some v`.
-/

namespace StockManager

/-- `models.UserRole`. -/
inductive UserRole where
  | superadmin
  | manager
  | hod
  | employee
deriving DecidableEq, Repr

/-- `models.RequestStatus`. -/
inductive RequestStatus where
  | draft
  | pending
  | approved
  | rejected
  | issued
deriving DecidableEq, Repr

/-- `models.User`, restricted to the fields the workflow reads.
`managed_department` embeds the `Department.hod_id` back-reference: the id of
the department whose `hod_id` is this user, if any.  `assigned_warehouses`
embeds the many-to-many warehouse assignment as a list of location ids. -/
structure User where
  id : Nat
  role : UserRole
  department_id : Option Nat
  managed_department : Option Nat
  full_name : String
  assigned_warehouses : List Nat
deriving DecidableEq, Repr

/-- `models.Department`, restricted to the fields the workflow reads. -/
structure Department where
  id : Nat
  hod_id : Option Nat
deriving DecidableEq, Repr

/-- `models.StockBalance`: one row per `(item_id, location_id)`. -/
structure StockBalance where
  item_id : Nat
  location_id : Nat
  quantity : ℤ
deriving DecidableEq, Repr

/-- `models.StockIssueLine`. -/
structure StockIssueLine where
  id : Nat
  request_id : Nat
  item_id : Nat
  quantity_requested : ℤ
  quantity_issued : Option ℤ
  remarks : Option String
deriving DecidableEq, Repr

/-- `models.StockIssueRequest`, restricted to the fields the workflow reads. -/
structure StockIssueRequest where
  id : Nat
  request_no : String
  requester_id : Nat
  department_id : Nat
  hod_id : Option Nat
  location_id : Nat
  status : RequestStatus
  purpose : String
  remarks : Option String
  approved_by : Option Nat
  approved_at : Option Nat
  issued_by : Option Nat
  issued_at : Option Nat
deriving DecidableEq, Repr

/-- The mutable tables the workflow touches. -/
structure DB where
  requests : List StockIssueRequest
  lines : List StockIssueLine
  balances : List StockBalance
  departments : List Department
deriving DecidableEq, Repr

/-- The error taxonomy of spec section 7; each flash-and-redirect error path of
the source is tagged with the matching error. -/
inductive OpError where
  | notFound
  | forbidden
  | invalidState
  | insufficientStock
  | validationError
deriving DecidableEq, Repr

/-- An operation result: committed new database, or an error with the pending
session changes discarded. -/
abbrev OpResult := Except OpError DB

/-- The database after running an operation: the source either commits (`ok`)
or redirects without committing, leaving the stored state untouched. -/
def commitRun (db : DB) : OpResult → DB
  | .ok db1 => db1
  | .error _ => db

/-- `StockIssueRequest.query.get(rid)` (first row with the primary key). -/
def findRequest (db : DB) (rid : Nat) : Option StockIssueRequest :=
  db.requests.find? (fun r => r.id == rid)

/-- `StockIssueLine.query.get(lid)`. -/
def findLine (db : DB) (lid : Nat) : Option StockIssueLine :=
  db.lines.find? (fun l => l.id == lid)

/-- `StockBalance.query.filter_by(item_id=…, location_id=…).first()`. -/
def findBalance (db : DB) (item loc : Nat) : Option StockBalance :=
  db.balances.find? (fun b => b.item_id == item && b.location_id == loc)

/-- `Department.query.get(did)`. -/
def findDepartment (db : DB) (did : Nat) : Option Department :=
  db.departments.find? (fun d => d.id == did)

/-- The spec's `getBalance`: `balance.quantity if balance else 0`
(`views/stock_issue.py`, `issue_form`). -/
def getBalance (db : DB) (item loc : Nat) : ℤ :=
  match findBalance db item loc with
  | some b => b.quantity
  | none => 0

/-- ORM object mutation: update the first (unique, per the table's primary
key) line with the given id. -/
def updateFirstLine (ls : List StockIssueLine) (lid : Nat)
    (f : StockIssueLine → StockIssueLine) : List StockIssueLine :=
  match ls with
  | [] => []
  | l :: rest =>
      if l.id == lid then f l :: rest else l :: updateFirstLine rest lid f

/-- ORM object mutation: update the first (unique, per the table's unique
constraint) balance row with the given key. -/
def updateFirstBalance (bs : List StockBalance) (item loc : Nat)
    (f : StockBalance → StockBalance) : List StockBalance :=
  match bs with
  | [] => []
  | b :: rest =>
      if b.item_id == item && b.location_id == loc then f b :: rest
      else b :: updateFirstBalance rest item loc f

/-- ORM object mutation: update the first request with the given id. -/
def updateFirstRequest (rs : List StockIssueRequest) (rid : Nat)
    (f : StockIssueRequest → StockIssueRequest) : List StockIssueRequest :=
  match rs with
  | [] => []
  | r :: rest =>
      if r.id == rid then f r :: rest else r :: updateFirstRequest rest rid f

/-- `line.quantity_issued = issued_decimal` on the fetched line object. -/
def setLineIssued (db : DB) (lid : Nat) (q : ℤ) : DB :=
  { db with lines :=
      updateFirstLine db.lines lid (fun l => { l with quantity_issued := some q }) }

/-- `stock_balance.quantity -= issued_decimal` on the fetched balance row. -/
def subBalance (db : DB) (item loc : Nat) (q : ℤ) : DB :=
  { db with balances :=
      updateFirstBalance db.balances item loc (fun b => { b with quantity := b.quantity - q }) }

/-- Modelled from the spec: the views do `from auth import role_required`, but
`src/auth.py` does not define `role_required` (the repository only carries a
superseded copy in `utils.py` that compares enum roles against plain strings).
Spec section 4.3: authorization is a per-operation role-membership predicate,
so the decorator passes exactly when the caller's role is in the allowed set. -/
def role_required (allowed : List UserRole) (u : User) : Bool :=
  allowed.contains u.role

/-- The per-line loop of `process_issue` (`views/stock_issue.py` lines
247-280): for each submitted `(line_id, quantity_issued)` pair, skip blank
fields and lines that do not belong to the request, reject a negative
quantity, a quantity above the line's `quantity_requested`, and a quantity
above the current (running) balance at the request's location; otherwise set
the line's `quantity_issued` and deduct from the balance row. -/
def processLines (db : DB) (reqId reqLoc : Nat) :
    List (Option Nat × Option ℤ) → OpResult
  | [] => .ok db
  | (olid, oq) :: rest =>
    match olid, oq with
    | some lid, some q =>
      match findLine db lid with
      | none => processLines db reqId reqLoc rest
      | some line =>
        if line.request_id ≠ reqId then processLines db reqId reqLoc rest
        else if q < 0 then .error .validationError
        else if line.quantity_requested < q then .error .validationError
        else
          match findBalance db line.item_id reqLoc with
          | none => .error .insufficientStock
          | some b =>
            if b.quantity < q then .error .insufficientStock
            else
              processLines (subBalance (setLineIssued db lid q) line.item_id reqLoc q)
                reqId reqLoc rest
    | _, _ => processLines db reqId reqLoc rest

/-- `process_issue` (`views/stock_issue.py` lines 229-303): the
`@role_required('superadmin', 'manager')` gate, the `status == APPROVED`
guard, the empty-form guard, the per-line validation/mutation loop, and on
success the `ISSUED` status transition with `issued_by`/`issued_at`. -/
def process_issue (db : DB) (caller : User) (reqId : Nat)
    (lineIds : List (Option Nat)) (qtys : List (Option ℤ)) (now : Nat) :
    OpResult :=
  if ¬ role_required [UserRole.superadmin, UserRole.manager] caller then
    .error .forbidden
  else
    match findRequest db reqId with
    | none => .error .notFound
    | some req =>
      if req.status ≠ RequestStatus.approved then .error .invalidState
      else if lineIds = [] ∨ qtys = [] then .error .validationError
      else
        match processLines db reqId req.location_id (lineIds.zip qtys) with
        | .error e => .error e
        | .ok db1 =>
          .ok { db1 with requests :=
                  updateFirstRequest db1.requests reqId (fun r =>
                    { r with
                      status := RequestStatus.issued
                      issued_by := some caller.id
                      issued_at := some now }) }

/-- Python whitespace, for `str.strip()`. -/
def isPySpace (c : Char) : Bool :=
  c = ' ' || c = '\t' || c = '\n' || c = '\r' || c = '\x0b' || c = '\x0c'

/-- Python `str.strip()`: drop leading and trailing whitespace. -/
def pyStrip (s : String) : String :=
  { data := ((s.data.dropWhile isPySpace).reverse.dropWhile isPySpace).reverse }

/-- Codepoint order on characters (the collation of the backing store). -/
def charLt (a b : Char) : Bool :=
  a.toNat < b.toNat

/-- Lexicographic order on character lists. -/
def lexLt : List Char → List Char → Bool
  | [], [] => false
  | [], _ :: _ => true
  | _ :: _, [] => false
  | a :: as, b :: bs => if a = b then lexLt as bs else charLt a b

/-- Lexicographic order on strings (how the store compares `request_no`). -/
def strLt (s t : String) : Bool :=
  lexLt s.data t.data

/-- The largest string of a list under `strLt`, if any: the first row of an
`ORDER BY … DESC` query. -/
def maxStr : List String → Option String
  | [] => none
  | s :: rest =>
    match maxStr rest with
    | none => some s
    | some m => if strLt s m then some m else some s

/-- The value of a decimal digit character, `none` otherwise. -/
def digitVal (c : Char) : Option Nat :=
  if c = '0' then some 0 else if c = '1' then some 1 else if c = '2' then some 2
  else if c = '3' then some 3 else if c = '4' then some 4 else if c = '5' then some 5
  else if c = '6' then some 6 else if c = '7' then some 7 else if c = '8' then some 8
  else if c = '9' then some 9 else none

/-- Accumulate decimal digits; `none` on the first non-digit. -/
def parseDigits : List Char → Nat → Option Nat
  | [], acc => some acc
  | c :: cs, acc =>
    match digitVal c with
    | some d => parseDigits cs (acc * 10 + d)
    | none => none

/-- Python `int(s)` on a plain digit string: the parsed number, `none` (a
raised `ValueError`) when the string is empty or holds a non-digit. -/
def parseNat (s : String) : Option Nat :=
  match s.data with
  | [] => none
  | cs => parseDigits cs 0

/-- Python truthiness of an optional integer form value / column: `None`
and `0` are falsy. -/
def truthyNat : Option Nat → Bool
  | some n => n != 0
  | none => false

/-- Python `current_user.department_id or 1` (`views/stock_issue.py` line 94):
the requester's department, defaulting to the first department for an
administrator with no (or a falsy) department affiliation. -/
def orOne (o : Option Nat) : Nat :=
  if truthyNat o then o.getD 1 else 1

/-- The remarks-append pattern shared by approval/rejection: if the request
already has truthy remarks the new text is appended after a blank line,
otherwise it replaces them. -/
def appendRemark (old : Option String) (new : String) : String :=
  match old with
  | some s => if s == "" then new else s ++ "\n\n" ++ new
  | none => new

/-- `models.User.can_access_warehouse`. -/
def can_access_warehouse (u : User) (lid : Nat) : Bool :=
  if [UserRole.superadmin, UserRole.manager].contains u.role then true
  else u.assigned_warehouses.contains lid

/-- `models.StockIssueRequest.can_be_approved_by`: the caller must be an HOD
whose managed department is the request's department. -/
def can_be_approved_by (req : StockIssueRequest) (u : User) : Bool :=
  u.role == UserRole.hod &&
    (match u.managed_department with
     | some md => md == req.department_id
     | none => false)

/-- `approve_request` (`views/approvals.py` lines 26-70): the
`@role_required('hod')` gate, the `can_be_approved_by` permission check, the
`status == PENDING` guard; on success the request becomes `APPROVED` with
`approved_by`/`approved_at` recorded and optional approval remarks appended. -/
def approve_request (db : DB) (caller : User) (reqId : Nat)
    (remarksRaw : String) (now : Nat) : OpResult :=
  if ¬ role_required [UserRole.hod] caller then .error .forbidden
  else
    match findRequest db reqId with
    | none => .error .notFound
    | some req =>
      if ¬ can_be_approved_by req caller then .error .forbidden
      else if req.status ≠ RequestStatus.pending then .error .invalidState
      else
        let rm := pyStrip remarksRaw
        .ok { db with requests :=
          updateFirstRequest db.requests reqId (fun r =>
            { r with
              status := RequestStatus.approved
              approved_by := some caller.id
              approved_at := some now
              remarks := if rm == "" then r.remarks
                         else some (appendRemark r.remarks ("Approval remarks: " ++ rm)) }) }

/-- `reject_request` (`views/approvals.py` lines 72-117): same gates as
`approve_request`, plus a required non-empty rejection reason; on success the
request becomes `REJECTED` with the reason appended to its remarks. -/
def reject_request (db : DB) (caller : User) (reqId : Nat)
    (remarksRaw : String) : OpResult :=
  if ¬ role_required [UserRole.hod] caller then .error .forbidden
  else
    match findRequest db reqId with
    | none => .error .notFound
    | some req =>
      if ¬ can_be_approved_by req caller then .error .forbidden
      else if req.status ≠ RequestStatus.pending then .error .invalidState
      else
        let rm := pyStrip remarksRaw
        if rm == "" then .error .validationError
        else
          .ok { db with requests :=
            updateFirstRequest db.requests reqId (fun r =>
              { r with
                status := RequestStatus.rejected
                remarks := some (appendRemark r.remarks ("Rejection reason: " ++ rm)) }) }

/-- `reject_approved_request` (`views/stock_issue.py` lines 465-505): the
`@role_required('superadmin', 'manager')` gate, the `status == APPROVED`
guard, the required non-empty reason; on success the request becomes
`REJECTED` with `Rejection by <caller>: <reason>` appended to its remarks. -/
def reject_approved_request (db : DB) (caller : User) (reqId : Nat)
    (remarksRaw : String) : OpResult :=
  if ¬ role_required [UserRole.superadmin, UserRole.manager] caller then .error .forbidden
  else
    match findRequest db reqId with
    | none => .error .notFound
    | some req =>
      if req.status ≠ RequestStatus.approved then .error .invalidState
      else
        let rm := pyStrip remarksRaw
        if rm == "" then .error .validationError
        else
          .ok { db with requests :=
            updateFirstRequest db.requests reqId (fun r =>
              { r with
                status := RequestStatus.rejected
                remarks := some (appendRemark r.remarks
                  ("Rejection by " ++ caller.full_name ++ ": " ++ rm)) }) }

/-- `submit_for_approval` (`views/stock_issue.py` lines 172-204): only the
requester may submit, only from `DRAFT`; on success the status becomes
`PENDING`. -/
def submit_for_approval (db : DB) (caller : User) (reqId : Nat) : OpResult :=
  match findRequest db reqId with
  | none => .error .notFound
  | some req =>
    if req.requester_id ≠ caller.id then .error .forbidden
    else if req.status ≠ RequestStatus.draft then .error .invalidState
    else
      .ok { db with requests :=
        updateFirstRequest db.requests reqId (fun r =>
          { r with status := RequestStatus.pending }) }

/-- `delete_request` (`views/stock_issue.py` lines 507-541): only the
requester may delete, only from `DRAFT`; on success the request and (by the
`delete-orphan` cascade) its lines are removed. -/
def delete_request (db : DB) (caller : User) (reqId : Nat) : OpResult :=
  match findRequest db reqId with
  | none => .error .notFound
  | some req =>
    if req.requester_id ≠ caller.id then .error .forbidden
    else if req.status ≠ RequestStatus.draft then .error .invalidState
    else
      .ok { db with
        requests := db.requests.filter (fun r => r.id ≠ reqId)
        lines := db.lines.filter (fun l => l.request_id ≠ reqId) }

/-- `create_entry`'s balance mutation (`views/stock_entry.py` lines 55-68):
add to the existing balance row, or create the row if absent. -/
def addBalance (db : DB) (item loc : Nat) (q : ℤ) : DB :=
  match findBalance db item loc with
  | some _ => { db with balances :=
      updateFirstBalance db.balances item loc (fun b => { b with quantity := b.quantity + q }) }
  | none => { db with balances := db.balances ++ [{ item_id := item, location_id := loc, quantity := q }] }

/-- `create_entry` (`views/stock_entry.py` lines 19-85): the
`@role_required('superadmin', 'manager')` gate, required item/location/
quantity, `quantity > 0`; on success the balance at `(item, location)` grows
by the quantity (the immutable `StockEntry` row itself is presentation-level
history and is not part of the embedded state). -/
def create_entry (db : DB) (caller : User) (itemId locId : Option Nat)
    (qty : Option ℤ) : OpResult :=
  if ¬ role_required [UserRole.superadmin, UserRole.manager] caller then .error .forbidden
  else
    match itemId, locId, qty with
    | some item, some loc, some q =>
      if q ≤ 0 then .error .validationError
      else .ok (addBalance db item loc q)
    | _, _, _ => .error .validationError

/-- The per-line debit fragment of `process_issue` (`views/stock_issue.py`
lines 257-280) in isolation: reject a negative quantity, fail with
insufficient stock when no balance row exists or the row holds less than the
quantity, otherwise deduct. -/
def debitBalance (db : DB) (item loc : Nat) (q : ℤ) : OpResult :=
  if q < 0 then .error .validationError
  else
    match findBalance db item loc with
    | none => .error .insufficientStock
    | some b =>
      if b.quantity < q then .error .insufficientStock
      else .ok (subBalance db item loc q)

/-- An abstract Stock Ledger mutation: an inbound stock entry
(`create_entry`) or an outbound issue debit (`process_issue`). -/
inductive LedgerOp where
  | entry (item loc : Nat) (q : ℤ)
  | issue (item loc : Nat) (q : ℤ)
deriving DecidableEq, Repr

/-- One ledger mutation, with the guards the source applies around it:
`create_entry` rejects a non-positive quantity before touching the balance,
and the issue debit is `debitBalance`. -/
def ledgerStep (db : DB) : LedgerOp → OpResult
  | .entry item loc q =>
      if q ≤ 0 then .error .validationError else .ok (addBalance db item loc q)
  | .issue item loc q => debitBalance db item loc q

/-- The signed delta a ledger operation applies when it succeeds. -/
def deltaOf : LedgerOp → Nat × Nat × ℤ
  | .entry i l q => (i, l, q)
  | .issue i l q => (i, l, -q)

/-- Run a sequence of ledger mutations; a failed mutation leaves the state
unchanged (its session is rolled back) and contributes no delta.  Returns the
final state together with the list of applied deltas. -/
def runLedger (db : DB) : List LedgerOp → DB × List (Nat × Nat × ℤ)
  | [] => (db, [])
  | op :: rest =>
    match ledgerStep db op with
    | .ok db1 =>
      let rec2 := runLedger db1 rest
      (rec2.1, deltaOf op :: rec2.2)
    | .error _ => runLedger db rest

/-- Sum of the applied deltas touching one `(item, location)` pair. -/
def appliedSum (ds : List (Nat × Nat × ℤ)) (item loc : Nat) : ℤ :=
  ((ds.filter (fun d => d.1 == item && d.2.1 == loc)).map (fun d => d.2.2)).sum

/-- `%03d` formatting of the daily sequence (`f"{prefix}{new_seq:03d}"`). -/
def pad3 (n : Nat) : String :=
  if n < 10 then "00" ++ toString n
  else if n < 100 then "0" ++ toString n
  else toString n

/-- The request numbers of the given day: the ORM filter
`request_no.like(f"{prefix}%")`. -/
def dayRequests (db : DB) (pfx : String) : List String :=
  (db.requests.map (fun r => r.request_no)).filter (fun s => pfx.data.isPrefixOf s.data)

/-- `order_by(request_no.desc()).first()` over the day's numbers: the
lexicographically largest, if any. -/
def lastDayRequest (db : DB) (pfx : String) : Option String :=
  maxStr (dayRequests db pfx)

/-- `int(last_request.request_no[-3:]) + 1`, or `1` when the day has no
request yet; `none` embeds the `ValueError` a non-numeric suffix raises
(caught by the surrounding `except`, failing the whole creation). -/
def nextSeq : Option String → Option Nat
  | none => some 1
  | some s =>
    match parseNat (s.takeRight 3) with
    | some k => some (k + 1)
    | none => none

/-- Request-number generation (`views/stock_issue.py` lines 72-88, same logic
as `models.StockIssueRequest.generate_request_no`): prefix `REQ<YYYYMMDD>`,
then the day's maximum existing number's 3-digit suffix plus one. -/
def generateRequestNo (db : DB) (date : String) : Option String :=
  match nextSeq (lastDayRequest db ("REQ" ++ date)) with
  | some n => some ("REQ" ++ date ++ pad3 n)
  | none => none

/-- `db.session.flush()` primary-key assignment for a new request. -/
def freshRequestId (db : DB) : Nat :=
  (db.requests.map (fun r => r.id)).foldr max 0 + 1

/-- Primary-key assignment for a batch of new lines. -/
def freshLineId (db : DB) : Nat :=
  (db.lines.map (fun l => l.id)).foldr max 0 + 1

/-- The `valid_items` collection loop shared by `submit_request` and
`update_request` (`views/stock_issue.py` lines 54-66): skip rows with a blank
item or quantity, abort (`none`) on a non-positive quantity, and pair each
kept row with its remark (blank when the remarks list is short). -/
def collectValidItems (itemRemarks : List String) :
    Nat → List (Option Nat × Option ℤ) → Option (List (Nat × ℤ × String))
  | _, [] => some []
  | i, (oid, oq) :: rest =>
    match oid, oq with
    | some iid, some q =>
      if q ≤ 0 then none
      else
        match collectValidItems itemRemarks (i + 1) rest with
        | some tl => some ((iid, q, itemRemarks.getD i "") :: tl)
        | none => none
    | _, _ => collectValidItems itemRemarks (i + 1) rest

/-- Materialize the collected items as `StockIssueLine` rows of a request. -/
def buildLines (baseId reqId : Nat) : List (Nat × ℤ × String) → List StockIssueLine
  | [] => []
  | (iid, q, rm) :: rest =>
    { id := baseId
      request_id := reqId
      item_id := iid
      quantity_requested := q
      quantity_issued := none
      remarks := if rm == "" then none else some rm } :: buildLines (baseId + 1) reqId rest

/-- The auto-approval test at creation (`views/stock_issue.py` lines
117-128): a MANAGER or SUPERADMIN requester, or an HOD requester whose
managed department is the request's own department. -/
def autoApprove (caller : User) (deptId : Nat) : Bool :=
  if [UserRole.manager, UserRole.superadmin].contains caller.role then true
  else
    caller.role == UserRole.hod &&
      (match caller.managed_department with
       | some md => md == deptId
       | none => false)

/-- The request record `submit_request` persists (`views/stock_issue.py`
lines 90-128): department defaulted by `current_user.department_id or 1`,
the department's HOD recorded, and the auto-approval fields filled in. -/
def newRequest (db : DB) (caller : User) (lid : Nat)
    (purpose remarks : String) (rno : String) (now : Nat) : StockIssueRequest :=
  let deptId := orOne caller.department_id
  let auto := autoApprove caller deptId
  { id := freshRequestId db
    request_no := rno
    requester_id := caller.id
    department_id := deptId
    hod_id := (findDepartment db deptId).bind (fun d => d.hod_id)
    location_id := lid
    status := if auto then RequestStatus.approved else RequestStatus.draft
    purpose := purpose
    remarks := if remarks == "" then none else some remarks
    approved_by := if auto then some caller.id else none
    approved_at := if auto then some now else none
    issued_by := none
    issued_at := none }

/-- `submit_request` (`views/stock_issue.py` lines 23-151): creation of a
request.  Guards: a department affiliation is required unless the requester is
SUPERADMIN/MANAGER; warehouse access to the chosen location; location,
purpose and at least one valid item required.  Effects: a fresh request
numbered by `generateRequestNo`, department defaulted by
`current_user.department_id or 1`, the department's HOD recorded, the lines
attached, and auto-approval for a MANAGER/SUPERADMIN requester or an HOD
requesting for their own department (everyone else starts in `DRAFT`). -/
def submit_request (db : DB) (caller : User) (locationId : Option Nat)
    (purposeRaw remarksRaw : String) (itemIds : List (Option Nat))
    (itemQtys : List (Option ℤ)) (itemRemarks : List String)
    (date : String) (now : Nat) : OpResult :=
  if ¬ truthyNat caller.department_id ∧
      ¬ [UserRole.superadmin, UserRole.manager].contains caller.role then
    .error .forbidden
  else
    match locationId with
    | none => .error .validationError
    | some lid =>
      if ¬ can_access_warehouse caller lid then .error .forbidden
      else if pyStrip purposeRaw == "" then .error .validationError
      else if itemIds = [] ∨ itemQtys = [] then .error .validationError
      else
        match collectValidItems itemRemarks 0 (itemIds.zip itemQtys) with
        | none => .error .validationError
        | some valid =>
          if valid = [] then .error .validationError
          else
            match generateRequestNo db date with
            | none => .error .validationError
            | some rno =>
              .ok { db with
                requests := db.requests ++
                  [newRequest db caller lid (pyStrip purposeRaw) (pyStrip remarksRaw) rno now]
                lines := db.lines ++ buildLines (freshLineId db) (freshRequestId db) valid }

/-- `update_request` (`views/stock_issue.py` lines 371-463): only the
requester may edit, only in `DRAFT`; the same form validation as
`submit_request`; on success the request's location/purpose/remarks are
replaced and its lines are deleted and rebuilt from the form. -/
def update_request (db : DB) (caller : User) (reqId : Nat)
    (locationId : Option Nat) (purposeRaw remarksRaw : String)
    (itemIds : List (Option Nat)) (itemQtys : List (Option ℤ))
    (itemRemarks : List String) : OpResult :=
  match findRequest db reqId with
  | none => .error .notFound
  | some req =>
    if req.requester_id ≠ caller.id then .error .forbidden
    else if req.status ≠ RequestStatus.draft then .error .invalidState
    else
      match locationId with
      | none => .error .validationError
      | some lid =>
        if ¬ can_access_warehouse caller lid then .error .forbidden
        else if pyStrip purposeRaw == "" then .error .validationError
        else if itemIds = [] ∨ itemQtys = [] then .error .validationError
        else
          match collectValidItems itemRemarks 0 (itemIds.zip itemQtys) with
          | none => .error .validationError
          | some valid =>
            if valid = [] then .error .validationError
            else
              .ok { db with
                requests := updateFirstRequest db.requests reqId (fun r =>
                  { r with
                    location_id := lid
                    purpose := pyStrip purposeRaw
                    remarks := if pyStrip remarksRaw == "" then none
                               else some (pyStrip remarksRaw) })
                lines := db.lines.filter (fun l => l.request_id ≠ reqId)
                  ++ buildLines (freshLineId db) reqId valid }

/-- The item a submitted line id resolves to, when the line exists and
belongs to the request (the pairs `process_issue` does not skip). -/
def lineItemOf (db : DB) (reqId lid : Nat) : Option Nat :=
  match findLine db lid with
  | some l => if l.request_id = reqId then some l.item_id else none
  | none => none

/-- Total quantity the submitted pairs debit against one item at the
request's location. -/
def debitTotal (db : DB) (reqId item : Nat) : List (Option Nat × Option ℤ) → ℤ
  | [] => 0
  | (some lid, some q) :: rest =>
    (if lineItemOf db reqId lid = some item then q else 0) + debitTotal db reqId item rest
  | _ :: rest => debitTotal db reqId item rest

/-- Whether a submitted pair names the given line id with a non-blank
quantity field. -/
def mentions (lid : Nat) (p : Option Nat × Option ℤ) : Bool :=
  p.1 == some lid && p.2.isSome

/-! ## Concrete sample data for witnesses -/

/-- A MANAGER with no department affiliation. -/
def mgrUser : User :=
  { id := 2, role := UserRole.manager, department_id := none,
    managed_department := none, full_name := "Mana Ger", assigned_warehouses := [] }

/-- A SUPERADMIN with no department affiliation. -/
def saUser : User :=
  { id := 5, role := UserRole.superadmin, department_id := none,
    managed_department := none, full_name := "Super Admin", assigned_warehouses := [] }

/-- The HOD of department 1. -/
def hodUser : User :=
  { id := 3, role := UserRole.hod, department_id := some 1,
    managed_department := some 1, full_name := "Head One", assigned_warehouses := [1] }

/-- A plain employee of department 1. -/
def empUser : User :=
  { id := 4, role := UserRole.employee, department_id := some 1,
    managed_department := none, full_name := "Emp Loyee", assigned_warehouses := [1] }

/-- An approved request of department 1 at location 1, made by the employee. -/
def baseReq : StockIssueRequest :=
  { id := 1, request_no := "REQ20240811001", requester_id := 4, department_id := 1,
    hod_id := some 3, location_id := 1, status := RequestStatus.approved,
    purpose := "laptops", remarks := none, approved_by := some 3,
    approved_at := some 10, issued_by := none, issued_at := none }

/-- One line of `baseReq`: 5 units of item 7. -/
def baseLine : StockIssueLine :=
  { id := 10, request_id := 1, item_id := 7, quantity_requested := 5,
    quantity_issued := none, remarks := none }

/-- A store holding `baseReq` with 3 units of item 7 on hand at location 1. -/
def baseDB : DB :=
  { requests := [baseReq], lines := [baseLine],
    balances := [{ item_id := 7, location_id := 1, quantity := 3 }],
    departments := [{ id := 1, hod_id := some 3 }] }

/-- `baseDB` with the request still PENDING. -/
def pendingDB : DB :=
  { baseDB with requests :=
      [{ baseReq with
          status := RequestStatus.pending
          approved_by := none
          approved_at := none }] }

/-- `baseDB` with the request still DRAFT. -/
def draftDB : DB :=
  { baseDB with requests :=
      [{ baseReq with
          status := RequestStatus.draft
          approved_by := none
          approved_at := none }] }

/-- A concrete partial fulfillment: 3 of the 5 requested units submitted. -/
def partialIssue : OpResult :=
  process_issue baseDB mgrUser 1 [some 10] [some 3] 42

/-- The store after the partial fulfillment commits. -/
def partialDB : DB :=
  commitRun baseDB partialIssue

/-! ## Lemmas about the table helpers -/

theorem find?_updateFirstBalance_same (bs : List StockBalance) (item loc : Nat)
    (f : StockBalance → StockBalance)
    (hf : ∀ b, (f b).item_id = b.item_id ∧ (f b).location_id = b.location_id) :
    (updateFirstBalance bs item loc f).find? (fun b => b.item_id == item && b.location_id == loc)
      = (bs.find? (fun b => b.item_id == item && b.location_id == loc)).map f := by
  induction bs with
  | nil => simp [updateFirstBalance]
  | cons b rest ih =>
    by_cases h : (b.item_id == item && b.location_id == loc) = true
    · have hfb : ((f b).item_id == item && (f b).location_id == loc) = true := by
        rw [(hf b).1, (hf b).2]; exact h
      simp only [updateFirstBalance, h, if_true]
      simp only [List.find?_cons, hfb, h]
      rfl
    · simp only [updateFirstBalance, h, if_false, List.find?]
      simp only [Bool.not_eq_true] at h
      simp [h, ih]

theorem find?_updateFirstBalance_ne (bs : List StockBalance) (item loc item2 loc2 : Nat)
    (f : StockBalance → StockBalance)
    (hf : ∀ b, (f b).item_id = b.item_id ∧ (f b).location_id = b.location_id)
    (hne : ¬ (item2 = item ∧ loc2 = loc)) :
    (updateFirstBalance bs item loc f).find? (fun b => b.item_id == item2 && b.location_id == loc2)
      = bs.find? (fun b => b.item_id == item2 && b.location_id == loc2) := by
  induction bs with
  | nil => simp [updateFirstBalance]
  | cons b rest ih =>
    by_cases h : (b.item_id == item && b.location_id == loc) = true
    · simp only [updateFirstBalance, h, if_true, List.find?]
      have h2 : (b.item_id == item2 && b.location_id == loc2) = false := by
        simp only [Bool.and_eq_true, beq_iff_eq] at h
        rcases h with ⟨h1, h2⟩
        by_contra hcon
        simp only [Bool.not_eq_false, Bool.and_eq_true, beq_iff_eq] at hcon
        exact hne ⟨hcon.1.symm.trans h1, hcon.2.symm.trans h2⟩
      have h2f : ((f b).item_id == item2 && (f b).location_id == loc2) = false := by
        rw [(hf b).1, (hf b).2]; exact h2
      simp [h2, h2f]
    · simp only [updateFirstBalance, h, if_false, List.find?]
      cases hpb : (b.item_id == item2 && b.location_id == loc2) <;> simp [hpb, ih]

theorem mem_updateFirstBalance (bs : List StockBalance) (item loc : Nat)
    (f : StockBalance → StockBalance) (x : StockBalance)
    (hx : x ∈ updateFirstBalance bs item loc f) :
    x ∈ bs ∨ ∃ b0, bs.find? (fun b => b.item_id == item && b.location_id == loc) = some b0
      ∧ x = f b0 := by
  induction bs with
  | nil => simp [updateFirstBalance] at hx
  | cons b rest ih =>
    by_cases h : (b.item_id == item && b.location_id == loc) = true
    · simp only [updateFirstBalance, h, if_true] at hx
      rcases List.mem_cons.mp hx with h1 | h1
      · right; exact ⟨b, by simp [List.find?, h], h1⟩
      · left; exact List.mem_cons_of_mem _ h1
    · simp only [updateFirstBalance, h, if_false] at hx
      rcases List.mem_cons.mp hx with h1 | h1
      · left; simp [h1]
      · rcases ih h1 with h2 | ⟨b0, hb0, hxb0⟩
        · left; exact List.mem_cons_of_mem _ h2
        · right
          refine ⟨b0, ?_, hxb0⟩
          simp only [Bool.not_eq_true] at h
          simp [List.find?, h, hb0]

theorem find?_updateFirstLine_same (ls : List StockIssueLine) (lid : Nat)
    (f : StockIssueLine → StockIssueLine) (hf : ∀ l, (f l).id = l.id) :
    (updateFirstLine ls lid f).find? (fun l => l.id == lid)
      = (ls.find? (fun l => l.id == lid)).map f := by
  induction ls with
  | nil => simp [updateFirstLine]
  | cons l rest ih =>
    by_cases h : (l.id == lid) = true
    · have hfb : ((f l).id == lid) = true := by rw [hf l]; exact h
      simp only [updateFirstLine, h, if_true]
      simp only [List.find?_cons, hfb, h]
      rfl
    · simp only [updateFirstLine, h, if_false, List.find?]
      simp only [Bool.not_eq_true] at h
      simp [h, ih]

theorem find?_updateFirstLine_ne (ls : List StockIssueLine) (lid lid2 : Nat)
    (f : StockIssueLine → StockIssueLine) (hf : ∀ l, (f l).id = l.id)
    (hne : lid2 ≠ lid) :
    (updateFirstLine ls lid f).find? (fun l => l.id == lid2)
      = ls.find? (fun l => l.id == lid2) := by
  induction ls with
  | nil => simp [updateFirstLine]
  | cons l rest ih =>
    by_cases h : (l.id == lid) = true
    · simp only [updateFirstLine, h, if_true, List.find?]
      have h2 : (l.id == lid2) = false := by
        simp only [beq_iff_eq] at h
        simp [h, hne.symm]
      have h2f : ((f l).id == lid2) = false := by rw [hf l]; exact h2
      simp [h2, h2f]
    · simp only [updateFirstLine, h, if_false, List.find?]
      cases hpb : (l.id == lid2) <;> simp [hpb, ih]

theorem find?_updateFirstRequest_same (rs : List StockIssueRequest) (rid : Nat)
    (f : StockIssueRequest → StockIssueRequest) (hf : ∀ r, (f r).id = r.id) :
    (updateFirstRequest rs rid f).find? (fun r => r.id == rid)
      = (rs.find? (fun r => r.id == rid)).map f := by
  induction rs with
  | nil => simp [updateFirstRequest]
  | cons r rest ih =>
    by_cases h : (r.id == rid) = true
    · have hfb : ((f r).id == rid) = true := by rw [hf r]; exact h
      simp only [updateFirstRequest, h, if_true]
      simp only [List.find?_cons, hfb, h]
      rfl
    · simp only [updateFirstRequest, h, if_false, List.find?]
      simp only [Bool.not_eq_true] at h
      simp [h, ih]

theorem findBalance_subBalance_same (db : DB) (item loc : Nat) (q : ℤ) :
    findBalance (subBalance db item loc q) item loc
      = (findBalance db item loc).map (fun b => { b with quantity := b.quantity - q }) := by
  unfold findBalance subBalance
  exact find?_updateFirstBalance_same _ _ _ _ (fun b => ⟨rfl, rfl⟩)

theorem findBalance_subBalance_ne (db : DB) (item loc item2 loc2 : Nat) (q : ℤ)
    (hne : ¬ (item2 = item ∧ loc2 = loc)) :
    findBalance (subBalance db item loc q) item2 loc2 = findBalance db item2 loc2 := by
  unfold findBalance subBalance
  exact find?_updateFirstBalance_ne _ _ _ _ _ _ (fun b => ⟨rfl, rfl⟩) hne

theorem getBalance_subBalance_some (db : DB) (item loc : Nat) (q : ℤ) (b : StockBalance)
    (h : findBalance db item loc = some b) :
    getBalance (subBalance db item loc q) item loc = b.quantity - q := by
  simp [getBalance, findBalance_subBalance_same, h]

theorem getBalance_subBalance_ne (db : DB) (item loc item2 loc2 : Nat) (q : ℤ)
    (hne : ¬ (item2 = item ∧ loc2 = loc)) :
    getBalance (subBalance db item loc q) item2 loc2 = getBalance db item2 loc2 := by
  simp [getBalance, findBalance_subBalance_ne db item loc item2 loc2 q hne]

theorem getBalance_addBalance_same (db : DB) (item loc : Nat) (q : ℤ) :
    getBalance (addBalance db item loc q) item loc = getBalance db item loc + q := by
  unfold addBalance
  cases h : findBalance db item loc with
  | some b =>
    have hsame := find?_updateFirstBalance_same db.balances item loc
      (fun b => { b with quantity := b.quantity + q }) (fun b => ⟨rfl, rfl⟩)
    unfold findBalance at h
    simp [getBalance, findBalance, hsame, h]
  | none =>
    unfold findBalance at h
    simp only [getBalance, findBalance, List.find?_append, h, Option.none_or]
    simp [getBalance, findBalance, h, List.find?]

theorem getBalance_addBalance_ne (db : DB) (item loc item2 loc2 : Nat) (q : ℤ)
    (hne : ¬ (item2 = item ∧ loc2 = loc)) :
    getBalance (addBalance db item loc q) item2 loc2 = getBalance db item2 loc2 := by
  unfold addBalance
  cases h : findBalance db item loc with
  | some b =>
    have hne2 := find?_updateFirstBalance_ne db.balances item loc item2 loc2
      (fun b => { b with quantity := b.quantity + q }) (fun b => ⟨rfl, rfl⟩) hne
    simp [getBalance, findBalance, hne2]
  | none =>
    have hrow : (({ item_id := item, location_id := loc, quantity := q } :
        StockBalance).item_id == item2 &&
        ({ item_id := item, location_id := loc, quantity := q } :
        StockBalance).location_id == loc2) = false := by
      simp only [Bool.and_eq_false_iff, beq_eq_false_iff_ne]
      by_contra hcon
      push_neg at hcon
      exact hne ⟨hcon.1.symm, hcon.2.symm⟩
    simp only [getBalance, findBalance, List.find?_append]
    simp [List.find?, hrow]

theorem findLine_setLineIssued_same (db : DB) (lid : Nat) (q : ℤ) :
    findLine (setLineIssued db lid q) lid
      = (findLine db lid).map (fun l => { l with quantity_issued := some q }) := by
  unfold findLine setLineIssued
  exact find?_updateFirstLine_same _ _ _ (fun l => rfl)

theorem findLine_setLineIssued_ne (db : DB) (lid lid2 : Nat) (q : ℤ) (hne : lid2 ≠ lid) :
    findLine (setLineIssued db lid q) lid2 = findLine db lid2 := by
  unfold findLine setLineIssued
  exact find?_updateFirstLine_ne _ _ _ _ (fun l => rfl) hne

/-- The compound per-line success step of `process_issue`: how it affects a
line lookup. -/
theorem findLine_issueStep (db : DB) (lid0 : Nat) (q0 : ℤ) (item loc : Nat) (qq : ℤ)
    (lid : Nat) :
    findLine (subBalance (setLineIssued db lid0 q0) item loc qq) lid
      = if lid = lid0
        then (findLine db lid).map (fun l => { l with quantity_issued := some q0 })
        else findLine db lid := by
  have hsub : findLine (subBalance (setLineIssued db lid0 q0) item loc qq) lid
      = findLine (setLineIssued db lid0 q0) lid := rfl
  rw [hsub]
  by_cases h : lid = lid0
  · subst h; simp [findLine_setLineIssued_same]
  · simp [h, findLine_setLineIssued_ne db lid0 lid q0 h]

theorem findRequest_update (db : DB) (rid : Nat)
    (f : StockIssueRequest → StockIssueRequest) (hf : ∀ r, (f r).id = r.id) :
    findRequest { db with requests := updateFirstRequest db.requests rid f } rid
      = (findRequest db rid).map f := by
  unfold findRequest
  exact find?_updateFirstRequest_same _ _ _ hf

theorem le_foldr_max (l : List Nat) (x : Nat) (hx : x ∈ l) : x ≤ l.foldr max 0 := by
  induction l with
  | nil => simp at hx
  | cons a rest ih =>
    rcases List.mem_cons.mp hx with h | h
    · subst h; exact le_max_left _ _
    · exact le_trans (ih h) (le_max_right _ _)

/-- Every stored request's id is strictly below the freshly assigned one. -/
theorem id_lt_freshRequestId (db : DB) (r : StockIssueRequest) (hr : r ∈ db.requests) :
    r.id < freshRequestId db := by
  have := le_foldr_max (db.requests.map (fun r => r.id)) r.id
    (List.mem_map_of_mem _ hr)
  unfold freshRequestId
  omega

theorem findRequest_append_new (db : DB) (req : StockIssueRequest)
    (hreq : req.id = freshRequestId db) :
    findRequest { db with requests := db.requests ++ [req] } (freshRequestId db)
      = some req := by
  unfold findRequest
  rw [List.find?_append]
  have hnone : db.requests.find? (fun r => r.id == freshRequestId db) = none := by
    rw [List.find?_eq_none]
    intro r hr
    have := id_lt_freshRequestId db r hr
    simp only [beq_eq_false_iff_ne, ne_eq, Bool.not_eq_true]
    omega
  simp [hnone, List.find?, hreq]

/-! ## Characterizing the fulfillment loop -/

theorem getBalance_setLineIssued (db : DB) (lid : Nat) (q : ℤ) (item loc : Nat) :
    getBalance (setLineIssued db lid q) item loc = getBalance db item loc := rfl

theorem lineItemOf_issueStep (db : DB) (lid0 : Nat) (q0 : ℤ) (item loc : Nat) (qq : ℤ)
    (reqId lid : Nat) :
    lineItemOf (subBalance (setLineIssued db lid0 q0) item loc qq) reqId lid
      = lineItemOf db reqId lid := by
  unfold lineItemOf
  rw [findLine_issueStep]
  by_cases h : lid = lid0
  · subst h; cases hfl : findLine db lid <;> simp [hfl]
  · simp [h]

theorem debitTotal_issueStep (db : DB) (lid0 : Nat) (q0 : ℤ) (item loc : Nat) (qq : ℤ)
    (reqId it : Nat) (pairs : List (Option Nat × Option ℤ)) :
    debitTotal (subBalance (setLineIssued db lid0 q0) item loc qq) reqId it pairs
      = debitTotal db reqId it pairs := by
  induction pairs with
  | nil => rfl
  | cons p rest ih =>
    obtain ⟨olid, oq⟩ := p
    rcases olid with _ | lid <;> rcases oq with _ | q <;>
      simp [debitTotal, ih, lineItemOf_issueStep]

/-- When the fulfillment loop commits, each balance at the request's location
drops by the total submitted for its item, and balances at other locations
are untouched. -/
theorem processLines_ok_getBalance (reqId reqLoc : Nat)
    (pairs : List (Option Nat × Option ℤ)) :
    ∀ db db1, processLines db reqId reqLoc pairs = .ok db1 →
      (∀ item, getBalance db1 item reqLoc
          = getBalance db item reqLoc - debitTotal db reqId item pairs) ∧
      (∀ item loc, loc ≠ reqLoc → getBalance db1 item loc = getBalance db item loc) := by
  induction pairs with
  | nil =>
    intro db db1 h
    simp only [processLines, Except.ok.injEq] at h
    subst h
    simp [debitTotal]
  | cons p rest ih =>
    intro db db1 h
    obtain ⟨olid, oq⟩ := p
    rcases olid with _ | lid
    · simp only [processLines] at h
      obtain ⟨ih1, ih2⟩ := ih db db1 h
      exact ⟨fun item => by rw [ih1 item]; simp [debitTotal], ih2⟩
    · rcases oq with _ | q
      · simp only [processLines] at h
        obtain ⟨ih1, ih2⟩ := ih db db1 h
        exact ⟨fun item => by rw [ih1 item]; simp [debitTotal], ih2⟩
      · simp only [processLines] at h
        cases hfl : findLine db lid with
        | none =>
          simp only [hfl] at h
          obtain ⟨ih1, ih2⟩ := ih db db1 h
          refine ⟨fun item => ?_, ih2⟩
          rw [ih1 item]
          simp [debitTotal, lineItemOf, hfl]
        | some line =>
          simp only [hfl] at h
          by_cases hrid : line.request_id ≠ reqId
          · rw [if_pos hrid] at h
            obtain ⟨ih1, ih2⟩ := ih db db1 h
            refine ⟨fun item => ?_, ih2⟩
            rw [ih1 item]
            simp [debitTotal, lineItemOf, hfl, hrid]
          · rw [if_neg hrid] at h
            push_neg at hrid
            by_cases hq : q < 0
            · rw [if_pos hq] at h; simp at h
            · rw [if_neg hq] at h
              by_cases hrq : line.quantity_requested < q
              · rw [if_pos hrq] at h; simp at h
              · rw [if_neg hrq] at h
                cases hfb : findBalance db line.item_id reqLoc with
                | none => simp only [hfb] at h; simp at h
                | some b =>
                  simp only [hfb] at h
                  by_cases hbq : b.quantity < q
                  · rw [if_pos hbq] at h; simp at h
                  · rw [if_neg hbq] at h
                    obtain ⟨ih1, ih2⟩ := ih _ db1 h
                    have hli : lineItemOf db reqId lid = some line.item_id := by
                      simp [lineItemOf, hfl, hrid]
                    constructor
                    · intro item
                      rw [ih1 item, debitTotal_issueStep]
                      simp only [debitTotal, hli]
                      by_cases hit : line.item_id = item
                      · subst hit
                        have hgb2 : getBalance
                            (subBalance (setLineIssued db lid q) line.item_id reqLoc q)
                            line.item_id reqLoc = b.quantity - q :=
                          getBalance_subBalance_some (setLineIssued db lid q)
                            line.item_id reqLoc q b hfb
                        rw [hgb2]
                        have hgb : getBalance db line.item_id reqLoc = b.quantity := by
                          simp [getBalance, hfb]
                        rw [hgb]
                        simp only [if_pos rfl]
                        simp
                        ring
                      · have hgb2 : getBalance
                            (subBalance (setLineIssued db lid q) line.item_id reqLoc q)
                            item reqLoc = getBalance db item reqLoc := by
                          rw [getBalance_subBalance_ne _ _ _ _ _ _
                            (fun hc => hit hc.1.symm)]
                          exact getBalance_setLineIssued db lid q item reqLoc
                        rw [hgb2]
                        have : (some line.item_id = some item) = False := by
                          simp [hit]
                        rw [if_neg (by simp [hit])]
                        ring
                    · intro item loc hloc
                      rw [ih2 item loc hloc]
                      exact getBalance_subBalance_ne _ _ _ _ _ _
                        (fun hc => hloc hc.2)

/-- Case analysis on one committed iteration of the fulfillment loop: either
the head pair was skipped (blank field, unknown line, or a line of another
request) and the loop went on unchanged, or every check passed and the loop
went on from the mutated state. -/
theorem processLines_cons_ok (db db1 : DB) (reqId reqLoc : Nat)
    (p : Option Nat × Option ℤ) (rest : List (Option Nat × Option ℤ))
    (h : processLines db reqId reqLoc (p :: rest) = .ok db1) :
    (processLines db reqId reqLoc rest = .ok db1 ∧
      ((∀ lid q, p ≠ (some lid, some q)) ∨
       (∃ lid q, p = (some lid, some q) ∧ findLine db lid = none) ∨
       (∃ lid q line, p = (some lid, some q) ∧ findLine db lid = some line ∧
         line.request_id ≠ reqId)))
    ∨
    (∃ lid q line b, p = (some lid, some q) ∧ findLine db lid = some line ∧
      line.request_id = reqId ∧ ¬ q < 0 ∧ ¬ line.quantity_requested < q ∧
      findBalance db line.item_id reqLoc = some b ∧ ¬ b.quantity < q ∧
      processLines (subBalance (setLineIssued db lid q) line.item_id reqLoc q)
        reqId reqLoc rest = .ok db1) := by
  obtain ⟨olid, oq⟩ := p
  rcases olid with _ | lid
  · exact .inl ⟨by simpa [processLines] using h, .inl (by simp)⟩
  · rcases oq with _ | q
    · exact .inl ⟨by simpa [processLines] using h, .inl (by simp)⟩
    · simp only [processLines] at h
      cases hfl : findLine db lid with
      | none =>
        simp only [hfl] at h
        exact .inl ⟨h, .inr (.inl ⟨lid, q, rfl, hfl⟩)⟩
      | some line =>
        simp only [hfl] at h
        by_cases hrid : line.request_id ≠ reqId
        · rw [if_pos hrid] at h
          exact .inl ⟨h, .inr (.inr ⟨lid, q, line, rfl, hfl, hrid⟩)⟩
        · rw [if_neg hrid] at h
          push_neg at hrid
          by_cases hq : q < 0
          · rw [if_pos hq] at h; simp at h
          · rw [if_neg hq] at h
            by_cases hrq : line.quantity_requested < q
            · rw [if_pos hrq] at h; simp at h
            · rw [if_neg hrq] at h
              cases hfb : findBalance db line.item_id reqLoc with
              | none => simp only [hfb] at h; simp at h
              | some b =>
                simp only [hfb] at h
                by_cases hbq : b.quantity < q
                · rw [if_pos hbq] at h; simp at h
                · rw [if_neg hbq] at h
                  exact .inr ⟨lid, q, line, b, rfl, hfl, hrid, hq, hrq, hfb, hbq, h⟩

/-- The fulfillment loop never touches the requests table. -/
theorem processLines_ok_requests (reqId reqLoc : Nat)
    (pairs : List (Option Nat × Option ℤ)) :
    ∀ db db1, processLines db reqId reqLoc pairs = .ok db1 →
      db1.requests = db.requests := by
  induction pairs with
  | nil =>
    intro db db1 h
    simp only [processLines, Except.ok.injEq] at h
    subst h; rfl
  | cons p rest ih =>
    intro db db1 h
    rcases processLines_cons_ok db db1 reqId reqLoc p rest h with ⟨h2, _⟩ | hstep
    · exact ih db db1 h2
    · obtain ⟨lid, q, line, b, _, _, _, _, _, _, _, h2⟩ := hstep
      exact (ih _ db1 h2).trans rfl

theorem getBalance_subBalance_le (db : DB) (i l : Nat) (q : ℤ) (item loc : Nat)
    (hq : 0 ≤ q) :
    getBalance (subBalance db i l q) item loc ≤ getBalance db item loc := by
  by_cases hkey : item = i ∧ loc = l
  · obtain ⟨h1, h2⟩ := hkey
    subst h1; subst h2
    rw [show getBalance (subBalance db item loc q) item loc
        = getBalance db item loc - (if (findBalance db item loc).isSome then q else 0) from ?_]
    · by_cases hf : (findBalance db item loc).isSome <;> simp [hf] <;> linarith
    · cases hf : findBalance db item loc with
      | none => simp [getBalance, findBalance_subBalance_same, hf]
      | some b => simp [getBalance, findBalance_subBalance_same, hf]
  · rw [getBalance_subBalance_ne db i l item loc q hkey]

/-- Committed fulfillment keeps all balances non-negative. -/
theorem processLines_ok_nonneg (reqId reqLoc : Nat)
    (pairs : List (Option Nat × Option ℤ)) :
    ∀ db db1, processLines db reqId reqLoc pairs = .ok db1 →
      (∀ b ∈ db.balances, 0 ≤ b.quantity) → ∀ b ∈ db1.balances, 0 ≤ b.quantity := by
  induction pairs with
  | nil =>
    intro db db1 h h0
    simp only [processLines, Except.ok.injEq] at h
    subst h; exact h0
  | cons p rest ih =>
    intro db db1 h h0
    rcases processLines_cons_ok db db1 reqId reqLoc p rest h with ⟨h2, _⟩ | hstep
    · exact ih db db1 h2 h0
    · obtain ⟨lid, q, line, b, _, _, _, hq, _, hfb, hbq, h2⟩ := hstep
      refine ih _ db1 h2 ?_
      intro x hx
      rcases mem_updateFirstBalance db.balances line.item_id reqLoc _ x hx with hmem | hf
      · exact h0 x hmem
      · obtain ⟨b0, hb0, hxb0⟩ := hf
        have : b0 = b := by
          have : findBalance db line.item_id reqLoc = some b0 := hb0
          rw [hfb] at this
          exact (Option.some.injEq _ _ ▸ this).symm
        subst this
        subst hxb0
        simp only
        linarith [not_lt.mp hbq, not_lt.mp hq]

/-- A line that no submitted pair names is left untouched by the loop. -/
theorem processLines_ok_findLine_zero (reqId reqLoc : Nat)
    (pairs : List (Option Nat × Option ℤ)) (lid : Nat) :
    ∀ db db1, processLines db reqId reqLoc pairs = .ok db1 →
      pairs.countP (mentions lid) = 0 → findLine db1 lid = findLine db lid := by
  induction pairs with
  | nil =>
    intro db db1 h _
    simp only [processLines, Except.ok.injEq] at h
    subst h; rfl
  | cons p rest ih =>
    intro db db1 h hcnt
    rw [List.countP_cons] at hcnt
    have hp : mentions lid p = false := by
      by_cases hb : mentions lid p = true
      · simp [hb] at hcnt
      · simpa using hb
    have hrest : rest.countP (mentions lid) = 0 := by
      rw [hp] at hcnt; simpa using hcnt
    rcases processLines_cons_ok db db1 reqId reqLoc p rest h with ⟨h2, _⟩ | hstep
    · exact ih db db1 h2 hrest
    · obtain ⟨lid1, q1, line, b, hpe, hfl1, _, _, _, _, _, h2⟩ := hstep
      have hne : lid ≠ lid1 := by
        intro hcon
        subst hcon
        rw [hpe] at hp
        simp [mentions] at hp
      have hstepLine := ih _ db1 h2 hrest
      rw [hstepLine, findLine_issueStep]
      simp [hne]

theorem processLines_ok_issued (reqId reqLoc : Nat)
    (pairs : List (Option Nat × Option ℤ)) (lid : Nat) (q : ℤ) :
    ∀ db db1, processLines db reqId reqLoc pairs = .ok db1 →
      pairs.countP (mentions lid) = 1 →
      (some lid, some q) ∈ pairs →
      ∀ l, findLine db lid = some l → l.request_id = reqId →
      findLine db1 lid = some { l with quantity_issued := some q } := by
  induction pairs with
  | nil =>
    intro db db1 h hcnt hmem
    simp at hmem
  | cons p rest ih =>
    intro db db1 h hcnt hmem l hfl hlreq
    rcases List.mem_cons.mp hmem with hph | hmem2
    · rcases processLines_cons_ok db db1 reqId reqLoc p rest h with ⟨h2, hskip⟩ | hstep
      · exfalso
        rcases hskip with hs1 | hs2 | hs3
        · exact hs1 lid q hph.symm
        · obtain ⟨lid2, q2, hpe, hfl2⟩ := hs2
          rw [← hph] at hpe
          obtain ⟨h1, _⟩ := Prod.mk.injEq .. ▸ hpe
          simp only [Prod.mk.injEq, Option.some.injEq] at hpe
          rw [← hpe.1] at hfl2
          rw [hfl2] at hfl
          cases hfl
        · obtain ⟨lid2, q2, line2, hpe, hfl2, hne2⟩ := hs3
          rw [← hph] at hpe
          simp only [Prod.mk.injEq, Option.some.injEq] at hpe
          rw [← hpe.1] at hfl2
          rw [hfl2] at hfl
          obtain rfl : line2 = l := by cases hfl; rfl
          exact hne2 hlreq
      · obtain ⟨lid1, q1, line, b, hpe, hfl1, _, _, _, _, _, h2⟩ := hstep
        rw [← hph] at hpe
        simp only [Prod.mk.injEq, Option.some.injEq] at hpe
        obtain ⟨hlid1, hq1⟩ := hpe
        subst hlid1
        subst hq1
        have hcnthead : mentions lid (some lid, some q) = true := by simp [mentions]
        rw [← hph] at hcnt
        simp only [List.countP_cons, hcnthead, if_true] at hcnt
        have hrest0 : rest.countP (mentions lid) = 0 := by omega
        have hnm := processLines_ok_findLine_zero reqId reqLoc rest lid _ db1 h2 hrest0
        rw [hnm, findLine_issueStep]
        simp [hfl]
    · have hpnm : mentions lid p = false := by
        by_cases hb : mentions lid p = true
        · exfalso
          have hposrest : 0 < rest.countP (mentions lid) :=
            List.countP_pos_iff.mpr ⟨(some lid, some q), hmem2, by simp [mentions]⟩
          simp only [List.countP_cons, hb, if_true] at hcnt
          omega
        · simpa using hb
      have hcnt2 : rest.countP (mentions lid) = 1 := by
        rw [List.countP_cons, hpnm] at hcnt
        simpa using hcnt
      rcases processLines_cons_ok db db1 reqId reqLoc p rest h with ⟨h2, _⟩ | hstep
      · exact ih db db1 h2 hcnt2 hmem2 l hfl hlreq
      · obtain ⟨lid1, q1, line, b, hpe, hfl1, _, _, _, _, _, h2⟩ := hstep
        have hne : lid ≠ lid1 := by
          intro hcon
          subst hcon
          rw [hpe] at hpnm
          simp [mentions] at hpnm
        have hfl2 : findLine (subBalance (setLineIssued db lid1 q1) line.item_id reqLoc q1)
            lid = some l := by
          rw [findLine_issueStep]
          simp [hne, hfl]
        exact ih _ db1 h2 hcnt2 hmem2 l hfl2 hlreq

theorem processLines_ok_guard (reqId reqLoc : Nat)
    (pairs : List (Option Nat × Option ℤ)) :
    ∀ db db1, processLines db reqId reqLoc pairs = .ok db1 →
      ∀ lid q, (some lid, some q) ∈ pairs →
      ∀ l, findLine db lid = some l → l.request_id = reqId →
      0 ≤ q ∧ q ≤ l.quantity_requested := by
  induction pairs with
  | nil =>
    intro db db1 h lid q hmem
    simp at hmem
  | cons p rest ih =>
    intro db db1 h lid q hmem l hfl hlreq
    rcases List.mem_cons.mp hmem with hph | hmem2
    · rcases processLines_cons_ok db db1 reqId reqLoc p rest h with ⟨h2, hskip⟩ | hstep
      · exfalso
        rcases hskip with hs1 | hs2 | hs3
        · exact hs1 lid q hph.symm
        · obtain ⟨lid2, q2, hpe, hfl2⟩ := hs2
          rw [← hph] at hpe
          simp only [Prod.mk.injEq, Option.some.injEq] at hpe
          rw [← hpe.1] at hfl2
          rw [hfl2] at hfl
          cases hfl
        · obtain ⟨lid2, q2, line2, hpe, hfl2, hne2⟩ := hs3
          rw [← hph] at hpe
          simp only [Prod.mk.injEq, Option.some.injEq] at hpe
          rw [← hpe.1] at hfl2
          rw [hfl2] at hfl
          obtain rfl : line2 = l := by cases hfl; rfl
          exact hne2 hlreq
      · obtain ⟨lid1, q1, line, b, hpe, hfl1, _, hq1, hrq1, _, _, h2⟩ := hstep
        rw [← hph] at hpe
        simp only [Prod.mk.injEq, Option.some.injEq] at hpe
        obtain ⟨hlid1, hq1e⟩ := hpe
        subst hlid1
        subst hq1e
        rw [hfl1] at hfl
        obtain rfl : line = l := by cases hfl; rfl
        exact ⟨not_lt.mp hq1, not_lt.mp hrq1⟩
    · rcases processLines_cons_ok db db1 reqId reqLoc p rest h with ⟨h2, _⟩ | hstep
      · exact ih db db1 h2 lid q hmem2 l hfl hlreq
      · obtain ⟨lid1, q1, line, b, _, hfl1, _, _, _, _, _, h2⟩ := hstep
        by_cases hcon : lid = lid1
        · subst hcon
          have hfl2 : findLine (subBalance (setLineIssued db lid q1) line.item_id reqLoc q1)
              lid = some { l with quantity_issued := some q1 } := by
            rw [findLine_issueStep]
            simp [hfl]
          have := ih _ db1 h2 lid q hmem2 _ hfl2 hlreq
          exact this
        · have hfl2 : findLine (subBalance (setLineIssued db lid1 q1) line.item_id reqLoc q1)
              lid = some l := by
            rw [findLine_issueStep]
            simp [hcon, hfl]
          exact ih _ db1 h2 lid q hmem2 l hfl2 hlreq

/-- When the loop commits, no submitted quantity exceeded the balance the
store held for its line's item when the operation began. -/
theorem processLines_ok_no_excess (reqId reqLoc : Nat)
    (pairs : List (Option Nat × Option ℤ)) :
    ∀ db db1, processLines db reqId reqLoc pairs = .ok db1 →
      ∀ lid q, (some lid, some q) ∈ pairs →
      ∀ l, findLine db lid = some l → l.request_id = reqId →
      q ≤ getBalance db l.item_id reqLoc := by
  induction pairs with
  | nil =>
    intro db db1 h lid q hmem
    simp at hmem
  | cons p rest ih =>
    intro db db1 h lid q hmem l hfl hlreq
    rcases List.mem_cons.mp hmem with hph | hmem2
    · rcases processLines_cons_ok db db1 reqId reqLoc p rest h with ⟨h2, hskip⟩ | hstep
      · exfalso
        rcases hskip with hs1 | hs2 | hs3
        · exact hs1 lid q hph.symm
        · obtain ⟨lid2, q2, hpe, hfl2⟩ := hs2
          rw [← hph] at hpe
          simp only [Prod.mk.injEq, Option.some.injEq] at hpe
          rw [← hpe.1] at hfl2
          rw [hfl2] at hfl
          cases hfl
        · obtain ⟨lid2, q2, line2, hpe, hfl2, hne2⟩ := hs3
          rw [← hph] at hpe
          simp only [Prod.mk.injEq, Option.some.injEq] at hpe
          rw [← hpe.1] at hfl2
          rw [hfl2] at hfl
          obtain rfl : line2 = l := by cases hfl; rfl
          exact hne2 hlreq
      · obtain ⟨lid1, q1, line, b, hpe, hfl1, _, _, _, hfb, hbq, h2⟩ := hstep
        rw [← hph] at hpe
        simp only [Prod.mk.injEq, Option.some.injEq] at hpe
        obtain ⟨hlid1, hq1e⟩ := hpe
        subst hlid1
        subst hq1e
        rw [hfl1] at hfl
        obtain rfl : line = l := by cases hfl; rfl
        have : getBalance db line.item_id reqLoc = b.quantity := by
          simp [getBalance, hfb]
        rw [this]
        exact not_lt.mp hbq
    · rcases processLines_cons_ok db db1 reqId reqLoc p rest h with ⟨h2, _⟩ | hstep
      · exact ih db db1 h2 lid q hmem2 l hfl hlreq
      · obtain ⟨lid1, q1, line, b, _, hfl1, _, hq1, _, hfb, hbq, h2⟩ := hstep
        have hmono : getBalance (subBalance (setLineIssued db lid1 q1) line.item_id reqLoc q1)
            l.item_id reqLoc ≤ getBalance db l.item_id reqLoc := by
          have := getBalance_subBalance_le (setLineIssued db lid1 q1) line.item_id reqLoc q1
            l.item_id reqLoc (not_lt.mp hq1)
          calc getBalance (subBalance (setLineIssued db lid1 q1) line.item_id reqLoc q1)
                l.item_id reqLoc
              ≤ getBalance (setLineIssued db lid1 q1) l.item_id reqLoc := this
            _ = getBalance db l.item_id reqLoc := rfl
        by_cases hcon : lid = lid1
        · subst hcon
          have hfl2 : findLine (subBalance (setLineIssued db lid q1) line.item_id reqLoc q1)
              lid = some { l with quantity_issued := some q1 } := by
            rw [findLine_issueStep]
            simp [hfl]
          have hle := ih _ db1 h2 lid q hmem2 _ hfl2 hlreq
          exact le_trans hle hmono
        · have hfl2 : findLine (subBalance (setLineIssued db lid1 q1) line.item_id reqLoc q1)
              lid = some l := by
            rw [findLine_issueStep]
            simp [hcon, hfl]
          have hle := ih _ db1 h2 lid q hmem2 l hfl2 hlreq
          exact le_trans hle hmono

/-- Eliminator for a committed `process_issue`: the role gate passed, the
request existed in `APPROVED`, the form was non-empty, the loop committed,
and the result is the loop's state with the request moved to `ISSUED`. -/
theorem process_issue_ok_elim (db db1 : DB) (caller : User) (reqId : Nat)
    (lineIds : List (Option Nat)) (qtys : List (Option ℤ)) (now : Nat)
    (h : process_issue db caller reqId lineIds qtys now = .ok db1) :
    role_required [UserRole.superadmin, UserRole.manager] caller = true ∧
    ∃ req db2, findRequest db reqId = some req ∧
      req.status = RequestStatus.approved ∧
      ¬ (lineIds = [] ∨ qtys = []) ∧
      processLines db reqId req.location_id (lineIds.zip qtys) = .ok db2 ∧
      db1 = { db2 with requests := updateFirstRequest db2.requests reqId (fun r =>
        { r with status := RequestStatus.issued, issued_by := some caller.id,
                 issued_at := some now }) } := by
  unfold process_issue at h
  by_cases hrole : role_required [UserRole.superadmin, UserRole.manager] caller = true
  · rw [if_neg (not_not_intro hrole)] at h
    refine ⟨hrole, ?_⟩
    cases hreq : findRequest db reqId with
    | none => rw [hreq] at h; simp at h
    | some req =>
      rw [hreq] at h
      simp only at h
      by_cases hst : req.status ≠ RequestStatus.approved
      · rw [if_pos hst] at h; simp at h
      · rw [if_neg hst] at h
        push_neg at hst
        by_cases hemp : lineIds = [] ∨ qtys = []
        · rw [if_pos hemp] at h; simp at h
        · rw [if_neg hemp] at h
          cases hpl : processLines db reqId req.location_id (lineIds.zip qtys) with
          | error e => rw [hpl] at h; simp at h
          | ok db2 =>
            rw [hpl] at h
            simp only [Except.ok.injEq] at h
            exact ⟨req, db2, rfl, hst, hemp, hpl, h.symm⟩
  · rw [if_pos hrole] at h
    simp at h

/-- C1: fulfillment of a stock issue request is atomic.  If any submitted
quantity for a line of the request exceeds the balance its item has at the
request's location when the operation starts, `process_issue` fails, no
`StockBalance` row changes, and the request (in particular its `APPROVED`
status) is untouched: balances are only committed when every line has been
validated. -/
theorem issue_fulfillment_atomic (db : DB) (caller : User) (reqId : Nat)
    (lineIds : List (Option Nat)) (qtys : List (Option ℤ)) (now : Nat)
    (req : StockIssueRequest) (lid : Nat) (q : ℤ) (l : StockIssueLine)
    (hreq : findRequest db reqId = some req)
    (hst : req.status = RequestStatus.approved)
    (hmem : (some lid, some q) ∈ lineIds.zip qtys)
    (hl : findLine db lid = some l)
    (hlreq : l.request_id = reqId)
    (hexcess : getBalance db l.item_id req.location_id < q) :
    (∃ e, process_issue db caller reqId lineIds qtys now = .error e) ∧
    commitRun db (process_issue db caller reqId lineIds qtys now) = db ∧
    (commitRun db (process_issue db caller reqId lineIds qtys now)).balances
      = db.balances ∧
    findRequest (commitRun db (process_issue db caller reqId lineIds qtys now)) reqId
      = some req := by
  have herr : ∃ e, process_issue db caller reqId lineIds qtys now = .error e := by
    cases hres : process_issue db caller reqId lineIds qtys now with
    | ok db1 =>
      exfalso
      obtain ⟨hrole, req2, db2, hreq2, hst2, hne, hpl, hdb1⟩ :=
        process_issue_ok_elim db db1 caller reqId lineIds qtys now hres
      rw [hreq] at hreq2
      obtain rfl : req = req2 := by cases hreq2; rfl
      have hle := processLines_ok_no_excess reqId req.location_id (lineIds.zip qtys)
        db db2 hpl lid q hmem l hl hlreq
      linarith
    | error e => exact ⟨e, rfl⟩
  obtain ⟨e, he⟩ := herr
  refine ⟨⟨e, he⟩, ?_, ?_, ?_⟩ <;> rw [he] <;> first | rfl | exact hreq

/-- Witness for C1: issuing the full 5 requested units of item 7 when only 3
are on hand fails and leaves the store as it was. -/
theorem issue_fulfillment_atomic_witness :
    (∃ e, process_issue baseDB mgrUser 1 [some 10] [some 5] 42 = .error e) ∧
    commitRun baseDB (process_issue baseDB mgrUser 1 [some 10] [some 5] 42) = baseDB ∧
    (commitRun baseDB (process_issue baseDB mgrUser 1 [some 10] [some 5] 42)).balances
      = baseDB.balances ∧
    findRequest (commitRun baseDB (process_issue baseDB mgrUser 1 [some 10] [some 5] 42)) 1
      = some baseReq :=
  issue_fulfillment_atomic baseDB mgrUser 1 [some 10] [some 5] 42 baseReq 10 5 baseLine
    (by decide) (by decide) (by decide) (by decide) (by decide) (by decide)

theorem getBalance_requestsUpdate (db : DB) (rs : List StockIssueRequest)
    (item loc : Nat) :
    getBalance { db with requests := rs } item loc = getBalance db item loc := rfl

theorem findLine_requestsUpdate (db : DB) (rs : List StockIssueRequest) (lid : Nat) :
    findLine { db with requests := rs } lid = findLine db lid := rfl

/-- Counterexample to C2 as stated: on `baseDB` (5 units requested, 3 on
hand) a fulfillment submitting 3 units succeeds, records
`quantity_issued = 3 ≠ 5 = quantity_requested`, and debits the ledger by 3,
even though the requested quantity exceeds the balance: the guard and the
effects use the submitted quantities, not `quantity_requested`. -/
theorem issue_quantity_issued_counterexample :
    process_issue baseDB mgrUser 1 [some 10] [some 3] 42 = .ok partialDB ∧
    (findLine partialDB 10).map (fun l => l.quantity_issued) = some (some 3) ∧
    (findLine baseDB 10).map (fun l => l.quantity_requested) = some 5 ∧
    ¬ ((3 : ℤ) = 5) ∧
    getBalance baseDB 7 1 = 3 ∧
    getBalance partialDB 7 1 = 0 ∧
    (findRequest partialDB 1).map (fun r => r.status) = some RequestStatus.issued := by
  refine ⟨rfl, by decide, by decide, by decide, by decide, by decide, by decide⟩

/-- C2 (amended): when fulfillment succeeds on an approved request, the
request moves to `ISSUED` with `issued_by`/`issued_at` recorded; the ledger
at the request's location drops, per item, by the total of the quantities
submitted for that item's lines (balances elsewhere are untouched); each line
named exactly once by the form has `quantity_issued` set to its submitted
quantity; and the guard bounds every submitted quantity by `0`, the line's
`quantity_requested`, and the balance on hand when the operation began. -/
theorem issue_success_spec (db db1 : DB) (caller : User) (reqId : Nat)
    (lineIds : List (Option Nat)) (qtys : List (Option ℤ)) (now : Nat)
    (req : StockIssueRequest)
    (hreq : findRequest db reqId = some req)
    (hok : process_issue db caller reqId lineIds qtys now = .ok db1) :
    findRequest db1 reqId = some { req with
      status := RequestStatus.issued
      issued_by := some caller.id
      issued_at := some now } ∧
    (∀ item, getBalance db1 item req.location_id
        = getBalance db item req.location_id
          - debitTotal db reqId item (lineIds.zip qtys)) ∧
    (∀ item loc, loc ≠ req.location_id →
        getBalance db1 item loc = getBalance db item loc) ∧
    (∀ lid q l, (lineIds.zip qtys).countP (mentions lid) = 1 →
        (some lid, some q) ∈ lineIds.zip qtys →
        findLine db lid = some l → l.request_id = reqId →
        findLine db1 lid = some { l with quantity_issued := some q }) ∧
    (∀ lid q l, (some lid, some q) ∈ lineIds.zip qtys →
        findLine db lid = some l → l.request_id = reqId →
        0 ≤ q ∧ q ≤ l.quantity_requested ∧
        q ≤ getBalance db l.item_id req.location_id) := by
  obtain ⟨hrole, req2, db2, hreq2, hst2, hne, hpl, hdb1⟩ :=
    process_issue_ok_elim db db1 caller reqId lineIds qtys now hok
  rw [hreq] at hreq2
  obtain rfl : req = req2 := by cases hreq2; rfl
  have hreqs2 : db2.requests = db.requests :=
    processLines_ok_requests reqId req.location_id (lineIds.zip qtys) db db2 hpl
  refine ⟨?_, ?_, ?_, ?_, ?_⟩
  · rw [hdb1]
    rw [findRequest_update db2 reqId (fun r => { r with status := RequestStatus.issued, issued_by := some caller.id, issued_at := some now }) (fun r => rfl)]
    have : findRequest db2 reqId = some req := by
      unfold findRequest
      rw [hreqs2]
      exact hreq
    rw [this]
    rfl
  · intro item
    have := (processLines_ok_getBalance reqId req.location_id (lineIds.zip qtys)
      db db2 hpl).1 item
    rw [hdb1, getBalance_requestsUpdate]
    exact this
  · intro item loc hloc
    have := (processLines_ok_getBalance reqId req.location_id (lineIds.zip qtys)
      db db2 hpl).2 item loc hloc
    rw [hdb1, getBalance_requestsUpdate]
    exact this
  · intro lid q l hcnt hmem hfl hlreq
    have := processLines_ok_issued reqId req.location_id (lineIds.zip qtys) lid q
      db db2 hpl hcnt hmem l hfl hlreq
    rw [hdb1, findLine_requestsUpdate]
    exact this
  · intro lid q l hmem hfl hlreq
    obtain ⟨h1, h2⟩ := processLines_ok_guard reqId req.location_id (lineIds.zip qtys)
      db db2 hpl lid q hmem l hfl hlreq
    exact ⟨h1, h2, processLines_ok_no_excess reqId req.location_id (lineIds.zip qtys)
      db db2 hpl lid q hmem l hfl hlreq⟩

/-- Witness for C2 (amended), on the concrete partial fulfillment: the
request is issued by the manager at time 42, the balance of item 7 drops from
3 by the submitted 3, and line 10 records `quantity_issued = 3 ≤ 5`. -/
theorem issue_success_spec_witness :
    findRequest partialDB 1 = some { baseReq with
      status := RequestStatus.issued
      issued_by := some mgrUser.id
      issued_at := some 42 } ∧
    getBalance partialDB 7 baseReq.location_id
      = getBalance baseDB 7 baseReq.location_id
        - debitTotal baseDB 1 7 ([some 10].zip [some (3 : ℤ)]) ∧
    findLine partialDB 10 = some { baseLine with quantity_issued := some 3 } ∧
    (0 ≤ (3 : ℤ) ∧ (3 : ℤ) ≤ baseLine.quantity_requested ∧
      (3 : ℤ) ≤ getBalance baseDB baseLine.item_id baseReq.location_id) := by
  have hspec := issue_success_spec baseDB partialDB mgrUser 1 [some 10] [some 3] 42
    baseReq (by decide) rfl
  exact ⟨hspec.1, hspec.2.1 7,
    hspec.2.2.2.1 10 3 baseLine (by decide) (by decide) (by decide) (by decide),
    hspec.2.2.2.2 10 3 baseLine (by decide) (by decide) (by decide)⟩

/-- C3: `ISSUED` is reachable only from `APPROVED`.  Attempting the issue
operation on a request in `DRAFT`, `PENDING`, `REJECTED` or `ISSUED` fails
with the invalid-state error and leaves the store unchanged. -/
theorem issue_only_from_approved (db : DB) (caller : User) (reqId : Nat)
    (lineIds : List (Option Nat)) (qtys : List (Option ℤ)) (now : Nat)
    (req : StockIssueRequest)
    (hreq : findRequest db reqId = some req)
    (hrole : role_required [UserRole.superadmin, UserRole.manager] caller = true)
    (hst : req.status = RequestStatus.draft ∨ req.status = RequestStatus.pending ∨
           req.status = RequestStatus.rejected ∨ req.status = RequestStatus.issued) :
    process_issue db caller reqId lineIds qtys now = .error .invalidState ∧
    commitRun db (process_issue db caller reqId lineIds qtys now) = db := by
  have hne : req.status ≠ RequestStatus.approved := by
    rcases hst with h | h | h | h <;> simp [h]
  have herr : process_issue db caller reqId lineIds qtys now = .error .invalidState := by
    unfold process_issue
    rw [if_neg (not_not_intro hrole)]
    simp only [hreq]
    rw [if_pos hne]
  exact ⟨herr, by rw [herr]; rfl⟩

/-- Witness for C3: a manager attempting to issue the still-PENDING request
gets the invalid-state error and the store is unchanged. -/
theorem issue_only_from_approved_witness :
    process_issue pendingDB mgrUser 1 [some 10] [some 5] 42 = .error .invalidState ∧
    commitRun pendingDB (process_issue pendingDB mgrUser 1 [some 10] [some 5] 42)
      = pendingDB :=
  issue_only_from_approved pendingDB mgrUser 1 [some 10] [some 5] 42
    { baseReq with
        status := RequestStatus.pending
        approved_by := none
        approved_at := none }
    (by decide) (by decide) (Or.inr (Or.inl (by decide)))

/-- C9: only the requester of a DRAFT request may edit, submit, or delete it.
A caller who is not the requester gets the forbidden error from each of the
three operations; and each operation also fails (with some error) when the
request is not in DRAFT.  Either way the store is unchanged. -/
theorem draft_ops_owner_only (db : DB) (caller : User) (reqId : Nat)
    (req : StockIssueRequest) (locationId : Option Nat)
    (purposeRaw remarksRaw : String) (itemIds : List (Option Nat))
    (itemQtys : List (Option ℤ)) (itemRemarks : List String)
    (hreq : findRequest db reqId = some req) :
    (req.requester_id ≠ caller.id →
      submit_for_approval db caller reqId = .error .forbidden ∧
      update_request db caller reqId locationId purposeRaw remarksRaw
        itemIds itemQtys itemRemarks = .error .forbidden ∧
      delete_request db caller reqId = .error .forbidden) ∧
    (req.status ≠ RequestStatus.draft →
      (∃ e, submit_for_approval db caller reqId = .error e) ∧
      (∃ e, update_request db caller reqId locationId purposeRaw remarksRaw
        itemIds itemQtys itemRemarks = .error e) ∧
      (∃ e, delete_request db caller reqId = .error e)) ∧
    (req.requester_id ≠ caller.id ∨ req.status ≠ RequestStatus.draft →
      commitRun db (submit_for_approval db caller reqId) = db ∧
      commitRun db (update_request db caller reqId locationId purposeRaw remarksRaw
        itemIds itemQtys itemRemarks) = db ∧
      commitRun db (delete_request db caller reqId) = db) := by
  have hsub : ∀ h : req.requester_id ≠ caller.id,
      submit_for_approval db caller reqId = .error .forbidden := by
    intro h
    unfold submit_for_approval
    simp only [hreq]
    rw [if_pos h]
  have hupd : ∀ h : req.requester_id ≠ caller.id,
      update_request db caller reqId locationId purposeRaw remarksRaw
        itemIds itemQtys itemRemarks = .error .forbidden := by
    intro h
    unfold update_request
    simp only [hreq]
    rw [if_pos h]
  have hdel : ∀ h : req.requester_id ≠ caller.id,
      delete_request db caller reqId = .error .forbidden := by
    intro h
    unfold delete_request
    simp only [hreq]
    rw [if_pos h]
  have hsub2 : ∀ _ : req.status ≠ RequestStatus.draft,
      ∃ e, submit_for_approval db caller reqId = .error e := by
    intro h
    by_cases hown : req.requester_id ≠ caller.id
    · exact ⟨.forbidden, hsub hown⟩
    · refine ⟨.invalidState, ?_⟩
      unfold submit_for_approval
      simp only [hreq]
      rw [if_neg hown, if_pos h]
  have hupd2 : ∀ _ : req.status ≠ RequestStatus.draft,
      ∃ e, update_request db caller reqId locationId purposeRaw remarksRaw
        itemIds itemQtys itemRemarks = .error e := by
    intro h
    by_cases hown : req.requester_id ≠ caller.id
    · exact ⟨.forbidden, hupd hown⟩
    · refine ⟨.invalidState, ?_⟩
      unfold update_request
      simp only [hreq]
      rw [if_neg hown, if_pos h]
  have hdel2 : ∀ _ : req.status ≠ RequestStatus.draft,
      ∃ e, delete_request db caller reqId = .error e := by
    intro h
    by_cases hown : req.requester_id ≠ caller.id
    · exact ⟨.forbidden, hdel hown⟩
    · refine ⟨.invalidState, ?_⟩
      unfold delete_request
      simp only [hreq]
      rw [if_neg hown, if_pos h]
  refine ⟨fun h => ⟨hsub h, hupd h, hdel h⟩,
          fun h => ⟨hsub2 h, hupd2 h, hdel2 h⟩,
          fun h => ?_⟩
  have e1 : ∃ e, submit_for_approval db caller reqId = .error e := by
    rcases h with h | h
    · exact ⟨.forbidden, hsub h⟩
    · exact hsub2 h
  have e2 : ∃ e, update_request db caller reqId locationId purposeRaw remarksRaw
      itemIds itemQtys itemRemarks = .error e := by
    rcases h with h | h
    · exact ⟨.forbidden, hupd h⟩
    · exact hupd2 h
  have e3 : ∃ e, delete_request db caller reqId = .error e := by
    rcases h with h | h
    · exact ⟨.forbidden, hdel h⟩
    · exact hdel2 h
  obtain ⟨a1, ha1⟩ := e1
  obtain ⟨a2, ha2⟩ := e2
  obtain ⟨a3, ha3⟩ := e3
  exact ⟨by rw [ha1]; rfl, by rw [ha2]; rfl, by rw [ha3]; rfl⟩

/-- Witness for C9: a manager who is not the requester is refused all three
draft operations on the (approved, hence also non-DRAFT) request. -/
theorem draft_ops_owner_only_witness :
    (submit_for_approval baseDB mgrUser 1 = .error .forbidden ∧
      update_request baseDB mgrUser 1 (some 1) "p" "" [some 7] [some 1] []
        = .error .forbidden ∧
      delete_request baseDB mgrUser 1 = .error .forbidden) ∧
    ((∃ e, submit_for_approval baseDB empUser 1 = .error e) ∧
      (∃ e, update_request baseDB empUser 1 (some 1) "p" "" [some 7] [some 1] []
        = .error e) ∧
      (∃ e, delete_request baseDB empUser 1 = .error e)) ∧
    commitRun baseDB (submit_for_approval baseDB mgrUser 1) = baseDB :=
  ⟨(draft_ops_owner_only baseDB mgrUser 1 baseReq (some 1) "p" "" [some 7] [some 1] []
      (by decide)).1 (by decide),
   (draft_ops_owner_only baseDB empUser 1 baseReq (some 1) "p" "" [some 7] [some 1] []
      (by decide)).2.1 (by decide),
   ((draft_ops_owner_only baseDB mgrUser 1 baseReq (some 1) "p" "" [some 7] [some 1] []
      (by decide)).2.2 (Or.inl (by decide))).1⟩

/-- C8: both rejection operations require a non-empty reason.  With an empty
or whitespace-only reason the operation fails validation and the store (in
particular the request's status and remarks) is unchanged; with a non-empty
reason it succeeds, appends the reason to the request's remarks, and sets the
status to `REJECTED`. -/
theorem reject_requires_reason (db : DB) (hodCaller adminCaller : User)
    (reqId : Nat) (req : StockIssueRequest) (reason : String)
    (hreq : findRequest db reqId = some req) :
    (can_be_approved_by req hodCaller = true → req.status = RequestStatus.pending →
      ((pyStrip reason = "" →
          reject_request db hodCaller reqId reason = .error .validationError ∧
          commitRun db (reject_request db hodCaller reqId reason) = db) ∧
       (pyStrip reason ≠ "" →
          reject_request db hodCaller reqId reason
            = .ok { db with requests := updateFirstRequest db.requests reqId (fun r =>
                { r with
                  status := RequestStatus.rejected
                  remarks := some (appendRemark r.remarks
                    ("Rejection reason: " ++ pyStrip reason)) }) }))) ∧
    (role_required [UserRole.superadmin, UserRole.manager] adminCaller = true →
      req.status = RequestStatus.approved →
      ((pyStrip reason = "" →
          reject_approved_request db adminCaller reqId reason
            = .error .validationError ∧
          commitRun db (reject_approved_request db adminCaller reqId reason) = db) ∧
       (pyStrip reason ≠ "" →
          reject_approved_request db adminCaller reqId reason
            = .ok { db with requests := updateFirstRequest db.requests reqId (fun r =>
                { r with
                  status := RequestStatus.rejected
                  remarks := some (appendRemark r.remarks
                    ("Rejection by " ++ adminCaller.full_name ++ ": "
                      ++ pyStrip reason)) }) }))) := by
  constructor
  · intro hcan hst
    have hrole : role_required [UserRole.hod] hodCaller = true := by
      simp only [can_be_approved_by, Bool.and_eq_true, beq_iff_eq] at hcan
      simp [role_required, hcan.1]
    have hst2 : ¬ req.status ≠ RequestStatus.pending := not_not_intro hst
    constructor
    · intro hempty
      have herr : reject_request db hodCaller reqId reason = .error .validationError := by
        unfold reject_request
        rw [if_neg (not_not_intro hrole)]
        simp only [hreq]
        rw [if_neg (not_not_intro hcan), if_neg hst2]
        rw [if_pos (by simpa using hempty)]
      exact ⟨herr, by rw [herr]; rfl⟩
    · intro hne
      unfold reject_request
      rw [if_neg (not_not_intro hrole)]
      simp only [hreq]
      rw [if_neg (not_not_intro hcan), if_neg hst2]
      rw [if_neg (by simpa using hne)]
  · intro hrole hst
    have hst2 : ¬ req.status ≠ RequestStatus.approved := not_not_intro hst
    constructor
    · intro hempty
      have herr : reject_approved_request db adminCaller reqId reason
          = .error .validationError := by
        unfold reject_approved_request
        rw [if_neg (not_not_intro hrole)]
        simp only [hreq]
        rw [if_neg hst2]
        rw [if_pos (by simpa using hempty)]
      exact ⟨herr, by rw [herr]; rfl⟩
    · intro hne
      unfold reject_approved_request
      rw [if_neg (not_not_intro hrole)]
      simp only [hreq]
      rw [if_neg hst2]
      rw [if_neg (by simpa using hne)]

/-- Witness for C8: the HOD rejecting the pending request with a blank reason
fails validation and changes nothing; with reason "broken" the manager
rejecting the approved request succeeds and appends the reason. -/
theorem reject_requires_reason_witness :
    (reject_request pendingDB hodUser 1 "   " = .error .validationError ∧
      commitRun pendingDB (reject_request pendingDB hodUser 1 "   ") = pendingDB) ∧
    reject_approved_request baseDB mgrUser 1 "broken"
      = .ok { baseDB with requests := updateFirstRequest baseDB.requests 1 (fun r =>
          { r with
            status := RequestStatus.rejected
            remarks := some (appendRemark r.remarks
              ("Rejection by " ++ mgrUser.full_name ++ ": " ++ pyStrip "broken")) }) } :=
  ⟨((reject_requires_reason pendingDB hodUser mgrUser 1
        { baseReq with
            status := RequestStatus.pending
            approved_by := none
            approved_at := none } "   " (by decide)).1
      (by decide) (by decide)).1 (by decide),
   ((reject_requires_reason baseDB hodUser mgrUser 1 baseReq "broken"
        (by decide)).2 (by decide) (by decide)).2 (by decide)⟩

/-- Counterexample to C5 as stated: a SUPERADMIN caller on a PENDING request
is refused by `approve_request` (the route is gated `role_required('hod')`
and `can_be_approved_by` only accepts the department's HOD), while the claim
says a SUPERADMIN approval succeeds. -/
theorem approve_superadmin_counterexample :
    saUser.role = UserRole.superadmin ∧
    (findRequest pendingDB 1).map (fun r => r.status) = some RequestStatus.pending ∧
    approve_request pendingDB saUser 1 "" 77 = .error .forbidden :=
  ⟨by decide, by decide, rfl⟩

/-- C5 (amended): the approve operation on a request succeeds exactly when
the caller is the HOD of the request's department (`can_be_approved_by`) and
the request is PENDING — a SUPERADMIN who is not that HOD is refused.  On
success the approver and the approval timestamp are recorded and the status
becomes APPROVED (with any approval remarks appended). -/
theorem approve_request_spec (db : DB) (caller : User) (reqId : Nat)
    (remarksRaw : String) (now : Nat) (req : StockIssueRequest)
    (hreq : findRequest db reqId = some req) :
    ((∃ db1, approve_request db caller reqId remarksRaw now = .ok db1) ↔
      (can_be_approved_by req caller = true ∧ req.status = RequestStatus.pending)) ∧
    (∀ db1, approve_request db caller reqId remarksRaw now = .ok db1 →
      findRequest db1 reqId = some { req with
        status := RequestStatus.approved
        approved_by := some caller.id
        approved_at := some now
        remarks := if pyStrip remarksRaw == "" then req.remarks
                   else some (appendRemark req.remarks
                     ("Approval remarks: " ++ pyStrip remarksRaw)) }) := by
  have hroleOf : can_be_approved_by req caller = true →
      role_required [UserRole.hod] caller = true := by
    intro hcan
    simp only [can_be_approved_by, Bool.and_eq_true, beq_iff_eq] at hcan
    simp [role_required, hcan.1]
  have hokElim : ∀ db1, approve_request db caller reqId remarksRaw now = .ok db1 →
      can_be_approved_by req caller = true ∧ req.status = RequestStatus.pending ∧
      db1 = { db with requests := updateFirstRequest db.requests reqId (fun r =>
        { r with
          status := RequestStatus.approved
          approved_by := some caller.id
          approved_at := some now
          remarks := if pyStrip remarksRaw == "" then r.remarks
                     else some (appendRemark r.remarks
                       ("Approval remarks: " ++ pyStrip remarksRaw)) }) } := by
    intro db1 hok
    unfold approve_request at hok
    by_cases hrole : role_required [UserRole.hod] caller = true
    · rw [if_neg (not_not_intro hrole)] at hok
      simp only [hreq] at hok
      by_cases hcan : can_be_approved_by req caller = true
      · rw [if_neg (not_not_intro hcan)] at hok
        by_cases hst : req.status ≠ RequestStatus.pending
        · rw [if_pos hst] at hok; simp at hok
        · rw [if_neg hst] at hok
          push_neg at hst
          simp only [Except.ok.injEq] at hok
          exact ⟨hcan, hst, hok.symm⟩
      · rw [if_pos (by simpa using hcan)] at hok; simp at hok
    · rw [if_pos (by simpa using hrole)] at hok; simp at hok
  constructor
  · constructor
    · rintro ⟨db1, hok⟩
      obtain ⟨h1, h2, _⟩ := hokElim db1 hok
      exact ⟨h1, h2⟩
    · rintro ⟨hcan, hst⟩
      refine ⟨{ db with requests := updateFirstRequest db.requests reqId (fun r => { r with status := RequestStatus.approved, approved_by := some caller.id, approved_at := some now, remarks := if pyStrip remarksRaw == "" then r.remarks else some (appendRemark r.remarks ("Approval remarks: " ++ pyStrip remarksRaw)) }) }, ?_⟩
      unfold approve_request
      rw [if_neg (not_not_intro (hroleOf hcan))]
      simp only [hreq]
      rw [if_neg (not_not_intro hcan), if_neg (not_not_intro hst)]
  · intro db1 hok
    obtain ⟨_, _, hdb1⟩ := hokElim db1 hok
    rw [hdb1]
    rw [findRequest_update db (reqId) (fun r => { r with status := RequestStatus.approved, approved_by := some caller.id, approved_at := some now, remarks := if pyStrip remarksRaw == "" then r.remarks else some (appendRemark r.remarks ("Approval remarks: " ++ pyStrip remarksRaw)) }) (fun r => rfl)]
    rw [hreq]
    rfl

/-- Witness for C5 (amended): the department's HOD approving the pending
request succeeds and records approver id 3 and timestamp 77. -/
theorem approve_request_spec_witness :
    approve_request pendingDB hodUser 1 "" 77
      = .ok (commitRun pendingDB (approve_request pendingDB hodUser 1 "" 77)) ∧
    findRequest (commitRun pendingDB (approve_request pendingDB hodUser 1 "" 77)) 1
      = some { { baseReq with
            status := RequestStatus.pending
            approved_by := none
            approved_at := none } with
          status := RequestStatus.approved
          approved_by := some hodUser.id
          approved_at := some 77
          remarks := if pyStrip "" == ""
                     then ({ baseReq with
                       status := RequestStatus.pending
                       approved_by := none
                       approved_at := none } : StockIssueRequest).remarks
                     else some (appendRemark ({ baseReq with
                       status := RequestStatus.pending
                       approved_by := none
                       approved_at := none } : StockIssueRequest).remarks
                       ("Approval remarks: " ++ pyStrip "")) } :=
  ⟨rfl,
   (approve_request_spec pendingDB hodUser 1 "" 77
      { baseReq with
          status := RequestStatus.pending
          approved_by := none
          approved_at := none } (by decide)).2 _ rfl⟩

/-- Eliminator for a committed `submit_request`: the form had a location, a
purpose, valid items, a fresh number was generated, and the result appends
`newRequest` and its lines to the store. -/
theorem submit_request_ok_elim (db db1 : DB) (caller : User)
    (locationId : Option Nat) (purposeRaw remarksRaw : String)
    (itemIds : List (Option Nat)) (itemQtys : List (Option ℤ))
    (itemRemarks : List String) (date : String) (now : Nat)
    (h : submit_request db caller locationId purposeRaw remarksRaw
      itemIds itemQtys itemRemarks date now = .ok db1) :
    ∃ lid valid rno, locationId = some lid ∧
      generateRequestNo db date = some rno ∧
      collectValidItems itemRemarks 0 (itemIds.zip itemQtys) = some valid ∧
      db1 = { db with
        requests := db.requests ++
          [newRequest db caller lid (pyStrip purposeRaw) (pyStrip remarksRaw) rno now]
        lines := db.lines ++ buildLines (freshLineId db) (freshRequestId db) valid } := by
  unfold submit_request at h
  by_cases hgate : ¬ truthyNat caller.department_id = true ∧
      ¬ [UserRole.superadmin, UserRole.manager].contains caller.role = true
  · rw [if_pos hgate] at h; simp at h
  · rw [if_neg hgate] at h
    cases hloc : locationId with
    | none => rw [hloc] at h; simp at h
    | some lid =>
      rw [hloc] at h
      simp only at h
      by_cases hacc : can_access_warehouse caller lid = true
      · rw [if_neg (not_not_intro hacc)] at h
        by_cases hpurp : (pyStrip purposeRaw == "") = true
        · rw [if_pos hpurp] at h; simp at h
        · rw [if_neg hpurp] at h
          by_cases hemp : itemIds = [] ∨ itemQtys = []
          · rw [if_pos hemp] at h; simp at h
          · rw [if_neg hemp] at h
            cases hvalid : collectValidItems itemRemarks 0 (itemIds.zip itemQtys) with
            | none => rw [hvalid] at h; simp at h
            | some valid =>
              rw [hvalid] at h
              simp only at h
              by_cases hve : valid = []
              · rw [if_pos hve] at h; simp at h
              · rw [if_neg hve] at h
                cases hrno : generateRequestNo db date with
                | none => rw [hrno] at h; simp at h
                | some rno =>
                  rw [hrno] at h
                  simp only [Except.ok.injEq] at h
                  exact ⟨lid, valid, rno, rfl, rfl, rfl, h.symm⟩
      · rw [if_pos hacc] at h
        simp at h

/-- C10: a MANAGER or SUPERADMIN requester with no department affiliation
gets department 1 recorded on the request they create
(`current_user.department_id or 1`). -/
theorem admin_default_department (db db1 : DB) (caller : User)
    (locationId : Option Nat) (purposeRaw remarksRaw : String)
    (itemIds : List (Option Nat)) (itemQtys : List (Option ℤ))
    (itemRemarks : List String) (date : String) (now : Nat)
    (hrole : caller.role = UserRole.manager ∨ caller.role = UserRole.superadmin)
    (hdept : caller.department_id = none)
    (hok : submit_request db caller locationId purposeRaw remarksRaw
      itemIds itemQtys itemRemarks date now = .ok db1) :
    ∃ req, findRequest db1 (freshRequestId db) = some req ∧
      req.department_id = 1 ∧ req.requester_id = caller.id := by
  obtain ⟨lid, valid, rno, hloc, hrno, hvalid, hdb1⟩ :=
    submit_request_ok_elim db db1 caller locationId purposeRaw remarksRaw
      itemIds itemQtys itemRemarks date now hok
  refine ⟨newRequest db caller lid (pyStrip purposeRaw) (pyStrip remarksRaw) rno now,
    ?_, ?_, rfl⟩
  · have hfind : findRequest db1 (freshRequestId db) = findRequest
        { db with requests := db.requests ++
          [newRequest db caller lid (pyStrip purposeRaw) (pyStrip remarksRaw) rno now] }
        (freshRequestId db) := by
      rw [hdb1]
      rfl
    rw [hfind]
    exact findRequest_append_new db _ rfl
  · show orOne caller.department_id = 1
    rw [hdept]
    rfl

/-- Witness for C10: the manager with no department creates a request on
`baseDB`; the stored request carries department 1. -/
theorem admin_default_department_witness :
    ∃ req, findRequest
        (commitRun baseDB (submit_request baseDB mgrUser (some 1) "restock" ""
          [some 7] [some 4] [] "20240811" 55))
        (freshRequestId baseDB) = some req ∧
      req.department_id = 1 ∧ req.requester_id = mgrUser.id :=
  admin_default_department baseDB _ mgrUser (some 1) "restock" ""
    [some 7] [some 4] [] "20240811" 55 (Or.inl (by decide)) (by decide) rfl

/-- The creation-time auto-approval test holds exactly for a MANAGER or
SUPERADMIN requester, or an HOD whose managed department is the request's
department. -/
theorem autoApprove_iff (caller : User) (d : Nat) :
    autoApprove caller d = true ↔
      (caller.role = UserRole.manager ∨ caller.role = UserRole.superadmin ∨
       (caller.role = UserRole.hod ∧ caller.managed_department = some d)) := by
  unfold autoApprove
  cases hr : caller.role
  · simp [hr]
  · simp [hr]
  · cases hmd : caller.managed_department with
    | none => simp [hr, hmd]
    | some md => simp [hr, hmd]
  · simp [hr]

/-- C6: at creation, a MANAGER or SUPERADMIN requester, or an HOD requesting
for their own department, gets the request auto-approved: it is persisted
directly as `APPROVED` (never `PENDING`) with `approved_by` the requester and
`approved_at` the creation time; every other requester's request is persisted
as `DRAFT` with no approval fields. -/
theorem create_auto_approve (db db1 : DB) (caller : User)
    (locationId : Option Nat) (purposeRaw remarksRaw : String)
    (itemIds : List (Option Nat)) (itemQtys : List (Option ℤ))
    (itemRemarks : List String) (date : String) (now : Nat)
    (hok : submit_request db caller locationId purposeRaw remarksRaw
      itemIds itemQtys itemRemarks date now = .ok db1) :
    ∃ req, findRequest db1 (freshRequestId db) = some req ∧
      req.requester_id = caller.id ∧
      req.department_id = orOne caller.department_id ∧
      ((caller.role = UserRole.manager ∨ caller.role = UserRole.superadmin ∨
        (caller.role = UserRole.hod ∧ caller.managed_department = some req.department_id)) →
        req.status = RequestStatus.approved ∧ req.approved_by = some caller.id ∧
        req.approved_at = some now) ∧
      (¬ (caller.role = UserRole.manager ∨ caller.role = UserRole.superadmin ∨
        (caller.role = UserRole.hod ∧ caller.managed_department = some req.department_id)) →
        req.status = RequestStatus.draft ∧ req.approved_by = none ∧
        req.approved_at = none) := by
  obtain ⟨lid, valid, rno, hloc, hrno, hvalid, hdb1⟩ :=
    submit_request_ok_elim db db1 caller locationId purposeRaw remarksRaw
      itemIds itemQtys itemRemarks date now hok
  refine ⟨newRequest db caller lid (pyStrip purposeRaw) (pyStrip remarksRaw) rno now,
    ?_, rfl, rfl, ?_, ?_⟩
  · have hfind : findRequest db1 (freshRequestId db) = findRequest
        { db with requests := db.requests ++
          [newRequest db caller lid (pyStrip purposeRaw) (pyStrip remarksRaw) rno now] }
        (freshRequestId db) := by
      rw [hdb1]
      rfl
    rw [hfind]
    exact findRequest_append_new db _ rfl
  · intro hc
    have hauto : autoApprove caller (orOne caller.department_id) = true :=
      (autoApprove_iff caller (orOne caller.department_id)).mpr hc
    refine ⟨?_, ?_, ?_⟩ <;> simp [newRequest, hauto]
  · intro hc
    have hauto : autoApprove caller (orOne caller.department_id) = false := by
      by_cases hb : autoApprove caller (orOne caller.department_id) = true
      · exact absurd ((autoApprove_iff caller (orOne caller.department_id)).mp hb) hc
      · simpa using hb
    refine ⟨?_, ?_, ?_⟩ <;> simp [newRequest, hauto]

/-- Witness for C6: the HOD of department 1 creates a request for their own
department on `baseDB` and it is auto-approved. -/
theorem create_auto_approve_witness :
    ∃ req, findRequest
        (commitRun baseDB (submit_request baseDB hodUser (some 1) "purchase" ""
          [some 7] [some 2] [] "20240811" 99))
        (freshRequestId baseDB) = some req ∧
      req.requester_id = hodUser.id ∧
      req.department_id = orOne hodUser.department_id ∧
      ((hodUser.role = UserRole.manager ∨ hodUser.role = UserRole.superadmin ∨
        (hodUser.role = UserRole.hod ∧ hodUser.managed_department = some req.department_id)) →
        req.status = RequestStatus.approved ∧ req.approved_by = some hodUser.id ∧
        req.approved_at = some 99) ∧
      (¬ (hodUser.role = UserRole.manager ∨ hodUser.role = UserRole.superadmin ∨
        (hodUser.role = UserRole.hod ∧ hodUser.managed_department = some req.department_id)) →
        req.status = RequestStatus.draft ∧ req.approved_by = none ∧
        req.approved_at = none) :=
  create_auto_approve baseDB _ hodUser (some 1) "purchase" ""
    [some 7] [some 2] [] "20240811" 99 rfl

theorem addBalance_nonneg (db : DB) (item loc : Nat) (q : ℤ) (hq : 0 ≤ q)
    (h0 : ∀ b ∈ db.balances, 0 ≤ b.quantity) :
    ∀ b ∈ (addBalance db item loc q).balances, 0 ≤ b.quantity := by
  unfold addBalance
  cases hf : findBalance db item loc with
  | some b =>
    intro x hx
    rcases mem_updateFirstBalance db.balances item loc _ x hx with hmem | ⟨b0, hb0, hxb0⟩
    · exact h0 x hmem
    · subst hxb0
      have hb0mem : b0 ∈ db.balances := List.mem_of_find?_eq_some hb0
      have := h0 b0 hb0mem
      simp only
      linarith
  | none =>
    intro x hx
    simp only [List.mem_append, List.mem_singleton] at hx
    rcases hx with hmem | rfl
    · exact h0 x hmem
    · exact hq

theorem subBalance_ok_nonneg (db : DB) (item loc : Nat) (q : ℤ) (b : StockBalance)
    (hf : findBalance db item loc = some b) (hbq : q ≤ b.quantity)
    (h0 : ∀ b2 ∈ db.balances, 0 ≤ b2.quantity) :
    ∀ b2 ∈ (subBalance db item loc q).balances, 0 ≤ b2.quantity := by
  unfold subBalance
  intro x hx
  rcases mem_updateFirstBalance db.balances item loc _ x hx with hmem | ⟨b0, hb0, hxb0⟩
  · exact h0 x hmem
  · subst hxb0
    have : b0 = b := by
      have hb0f : findBalance db item loc = some b0 := hb0
      rw [hf] at hb0f
      exact (Option.some.injEq .. ▸ hb0f).symm
    subst this
    simp only
    linarith

/-- One committed nonneg-preserving characterization of a ledger run: the
final balances stay non-negative and each `(item, location)` balance ends at
its start plus the sum of the deltas the successful operations applied. -/
theorem runLedger_spec (ops : List LedgerOp) :
    ∀ db, (∀ b ∈ db.balances, 0 ≤ b.quantity) →
      (∀ b ∈ (runLedger db ops).1.balances, 0 ≤ b.quantity) ∧
      (∀ item loc, getBalance (runLedger db ops).1 item loc
          = getBalance db item loc + appliedSum (runLedger db ops).2 item loc) := by
  induction ops with
  | nil =>
    intro db h0
    exact ⟨h0, fun item loc => by simp [runLedger, appliedSum]⟩
  | cons op rest ih =>
    intro db h0
    cases op with
    | entry item loc q =>
      by_cases hq : q ≤ 0
      · have hstep : ledgerStep db (.entry item loc q) = .error .validationError := by
          simp [ledgerStep, hq]
        simp only [runLedger, hstep]
        exact ih db h0
      · have hstep : ledgerStep db (.entry item loc q) = .ok (addBalance db item loc q) := by
          simp [ledgerStep, hq]
        simp only [runLedger, hstep]
        push_neg at hq
        obtain ⟨ihA, ihB⟩ := ih (addBalance db item loc q)
          (addBalance_nonneg db item loc q (le_of_lt hq) h0)
        refine ⟨ihA, ?_⟩
        intro it lc
        rw [ihB it lc]
        by_cases hkey : it = item ∧ lc = loc
        · obtain ⟨rfl, rfl⟩ := hkey
          rw [getBalance_addBalance_same]
          simp only [deltaOf, appliedSum, List.filter, beq_self_eq_true, Bool.and_self]
          simp [appliedSum]
          ring
        · rw [getBalance_addBalance_ne db item loc it lc q hkey]
          have hpred : ((item == it) && (loc == lc)) = false := by
            cases hb : ((item == it) && (loc == lc)) with
            | false => rfl
            | true =>
              exfalso
              simp only [Bool.and_eq_true, beq_iff_eq] at hb
              exact hkey ⟨hb.1.symm, hb.2.symm⟩
          simp only [deltaOf, appliedSum, List.filter, hpred]
    | issue item loc q =>
      by_cases hq : q < 0
      · have hstep : ledgerStep db (.issue item loc q) = .error .validationError := by
          simp [ledgerStep, debitBalance, hq]
        simp only [runLedger, hstep]
        exact ih db h0
      · cases hf : findBalance db item loc with
        | none =>
          have hstep : ledgerStep db (.issue item loc q) = .error .insufficientStock := by
            simp [ledgerStep, debitBalance, hq, hf]
          simp only [runLedger, hstep]
          exact ih db h0
        | some b =>
          by_cases hbq : b.quantity < q
          · have hstep : ledgerStep db (.issue item loc q) = .error .insufficientStock := by
              simp [ledgerStep, debitBalance, hq, hf, hbq]
            simp only [runLedger, hstep]
            exact ih db h0
          · have hstep : ledgerStep db (.issue item loc q) = .ok (subBalance db item loc q) := by
              simp [ledgerStep, debitBalance, hq, hf, hbq]
            simp only [runLedger, hstep]
            obtain ⟨ihA, ihB⟩ := ih (subBalance db item loc q)
              (subBalance_ok_nonneg db item loc q b hf (not_lt.mp hbq) h0)
            refine ⟨ihA, ?_⟩
            intro it lc
            rw [ihB it lc]
            by_cases hkey : it = item ∧ lc = loc
            · obtain ⟨rfl, rfl⟩ := hkey
              rw [getBalance_subBalance_some db it lc q b hf]
              have hgb : getBalance db it lc = b.quantity := by simp [getBalance, hf]
              rw [hgb]
              simp [appliedSum, deltaOf]
              ring
            · rw [getBalance_subBalance_ne db item loc it lc q hkey]
              have hpred : ((item == it) && (loc == lc)) = false := by
                cases hb : ((item == it) && (loc == lc)) with
                | false => rfl
                | true =>
                  exfalso
                  simp only [Bool.and_eq_true, beq_iff_eq] at hb
                  exact hkey ⟨hb.1.symm, hb.2.symm⟩
              simp only [deltaOf, appliedSum, List.filter, hpred]

/-- C4: every `StockBalance` quantity is non-negative after every operation.
For every sequence of stock-entry additions and issue debits starting from a
non-negative store: every intermediate state (the run of every prefix) is
non-negative, the final balance of each `(item, location)` equals its start
plus the sum of the applied deltas, and a debit that would take a balance
below zero fails with the insufficient-stock error and leaves the balance
unchanged. -/
theorem ledger_balances_spec (db : DB) (ops : List LedgerOp)
    (h0 : ∀ b ∈ db.balances, 0 ≤ b.quantity) :
    (∀ pre suf, ops = pre ++ suf →
      ∀ b ∈ (runLedger db pre).1.balances, 0 ≤ b.quantity) ∧
    (∀ item loc, getBalance (runLedger db ops).1 item loc
        = getBalance db item loc + appliedSum (runLedger db ops).2 item loc) ∧
    (∀ item loc q, 0 ≤ q → getBalance db item loc < q →
      ledgerStep db (.issue item loc q) = .error .insufficientStock ∧
      commitRun db (ledgerStep db (.issue item loc q)) = db) := by
  refine ⟨?_, (runLedger_spec ops db h0).2, ?_⟩
  · intro pre suf hsplit
    exact (runLedger_spec pre db h0).1
  · intro item loc q hq hlt
    have herr : ledgerStep db (.issue item loc q) = .error .insufficientStock := by
      simp only [ledgerStep]
      unfold debitBalance
      rw [if_neg (not_lt.mpr hq)]
      cases hf : findBalance db item loc with
      | none => rfl
      | some b =>
        have hgb : getBalance db item loc = b.quantity := by simp [getBalance, hf]
        rw [hgb] at hlt
        simp only
        rw [if_pos hlt]
    exact ⟨herr, by rw [herr]; rfl⟩

/-- Witness for C4: from 3 units on hand, an inbound entry of 25 and a debit
of 5; and a direct debit of 5 from the initial 3 fails. -/
theorem ledger_balances_spec_witness :
    (∀ pre suf, [LedgerOp.entry 7 1 25, LedgerOp.issue 7 1 5] = pre ++ suf →
      ∀ b ∈ (runLedger baseDB pre).1.balances, 0 ≤ b.quantity) ∧
    (∀ item loc,
      getBalance (runLedger baseDB [LedgerOp.entry 7 1 25, LedgerOp.issue 7 1 5]).1 item loc
        = getBalance baseDB item loc
          + appliedSum (runLedger baseDB [LedgerOp.entry 7 1 25, LedgerOp.issue 7 1 5]).2
              item loc) ∧
    (∀ item loc q, 0 ≤ q → getBalance baseDB item loc < q →
      ledgerStep baseDB (.issue item loc q) = .error .insufficientStock ∧
      commitRun baseDB (ledgerStep baseDB (.issue item loc q)) = baseDB) :=
  ledger_balances_spec baseDB [LedgerOp.entry 7 1 25, LedgerOp.issue 7 1 5] (by decide)

set_option maxRecDepth 10000 in
set_option maxHeartbeats 1000000 in
/-- `%03d` formatting is inverted by the digit parser up to 999. -/
theorem parseNat_pad3 : ∀ n, n < 1000 → parseNat (pad3 n) = some n := by decide

theorem string_append_left_cancel (a b c : String) (h : a ++ b = a ++ c) : b = c := by
  have hd : (a ++ b).data = (a ++ c).data := by rw [h]
  simp [String.data_append] at hd
  exact String.ext hd

/-- C7: request numbers have the form `REQ<date><3-digit-sequence>` with the
sequence scoped to the day.  When the day's existing numbers are well-formed
(each is the prefix plus a 3-digit sequence below the next sequence `n`, with
`n ≤ 999` read off the day's maximum and incremented — `nextSeq`), generation
produces `REQ<date>` followed by `pad3 n`, which collides with no existing
number of the day; on a day with no requests the sequence starts at 1
(`001`). -/
theorem request_no_generation (db : DB) (date : String) (n : Nat)
    (hn : nextSeq (lastDayRequest db ("REQ" ++ date)) = some n)
    (hbound : n ≤ 999)
    (hwf : ∀ s ∈ dayRequests db ("REQ" ++ date),
      ∃ j, j < n ∧ s = "REQ" ++ date ++ pad3 j) :
    generateRequestNo db date = some ("REQ" ++ date ++ pad3 n) ∧
    ("REQ" ++ date ++ pad3 n) ∉ dayRequests db ("REQ" ++ date) ∧
    (dayRequests db ("REQ" ++ date) = [] → n = 1) := by
  refine ⟨?_, ?_, ?_⟩
  · unfold generateRequestNo
    rw [hn]
  · intro hmem
    obtain ⟨j, hj, hs⟩ := hwf _ hmem
    have hpad : pad3 n = pad3 j :=
      string_append_left_cancel ("REQ" ++ date) (pad3 n) (pad3 j) hs
    have hpj : parseNat (pad3 j) = some j := parseNat_pad3 j (by omega)
    have hpn : parseNat (pad3 n) = some n := parseNat_pad3 n (by omega)
    rw [hpad, hpj] at hpn
    have : j = n := by
      simpa using hpn
    omega
  · intro hempty
    unfold nextSeq lastDayRequest at hn
    rw [hempty] at hn
    simp only [maxStr] at hn
    simpa using hn.symm

/-- Witness for C7: on a day already holding `REQ20240811001` the generator
produces `REQ20240811002` (sequence 2), which is new; on a fresh day the
generator produces sequence 1 (`REQ20240812001`). -/
theorem request_no_generation_witness :
    (generateRequestNo baseDB "20240811" = some ("REQ" ++ "20240811" ++ pad3 2) ∧
      ("REQ" ++ "20240811" ++ pad3 2) ∉ dayRequests baseDB ("REQ" ++ "20240811") ∧
      (dayRequests baseDB ("REQ" ++ "20240811") = [] → 2 = 1)) ∧
    (generateRequestNo baseDB "20240812" = some ("REQ" ++ "20240812" ++ pad3 1) ∧
      ("REQ" ++ "20240812" ++ pad3 1) ∉ dayRequests baseDB ("REQ" ++ "20240812") ∧
      (dayRequests baseDB ("REQ" ++ "20240812") = [] → 1 = 1)) :=
  ⟨request_no_generation baseDB "20240811" 2 (by decide) (by decide)
    (by
      intro s hs
      have hday : dayRequests baseDB ("REQ" ++ "20240811") = ["REQ20240811001"] := by decide
      rw [hday] at hs
      rw [List.mem_singleton.mp hs]
      exact ⟨1, by omega, by decide⟩),
   request_no_generation baseDB "20240812" 1 (by decide) (by decide)
    (by
      intro s hs
      have hday : dayRequests baseDB ("REQ" ++ "20240812") = [] := by decide
      rw [hday] at hs
      simp at hs)⟩

end StockManager
